import Mathlib

/-!
Shallow embedding of the `analisis-titulacion-los-rios` data pipeline
(`src/data_pipeline`): the data model shared between stages, the data
cleaner (`transformers/data_cleaner.py`), the regional filter
(`transformers/regional_filter.py`) and the data-quality validator
(`validators/data_quality_validator.py`), together with theorems
settling the specification claims about them.

Modelling conventions:
* a pandas `DataFrame` is a `Dataset`: a list of column headers
  (name and dtype) together with a list of rows; each cell is
  `Option Scalar`, where `none` models `NaN`/missing;
* machine floats are modelled as rationals (`ℚ`); the claims under
  study do not depend on floating-point rounding;
* the two pandas dtypes relevant to this code base (`object` versus the
  numeric dtypes `int64`/`float64`/`Int64`) are modelled by `Dtype`;
* Python `str.lower` is modelled ASCII-wise (`lowerChar`), matching its
  behaviour on all strings the pipeline manipulates.
-/

namespace Titulacion

/-- A scalar cell value: a string or a number (floats modelled as `ℚ`). -/
inductive Scalar where
  | str (s : String)
  | num (q : ℚ)
deriving DecidableEq, Repr

/-- A cell of a data frame; `none` models `NaN` (missing). -/
abbrev Cell := Option Scalar

/-- Column dtype: pandas `object` versus a numeric dtype. -/
inductive Dtype where
  | obj
  | numeric
deriving DecidableEq, Repr

/-- A column header: its name and dtype. -/
structure ColMeta where
  name : String
  dtype : Dtype
deriving DecidableEq, Repr

/-- A tabular dataset (pandas `DataFrame`): named, typed columns and a
list of rows.  A well-formed dataset has every row of the same length
as the header list (`Dataset.WF`). -/
structure Dataset where
  cols : List ColMeta
  rows : List (List Cell)
deriving DecidableEq, Repr

/-- Every row has exactly one cell per column. -/
def Dataset.WF (d : Dataset) : Prop :=
  ∀ r ∈ d.rows, r.length = d.cols.length

instance (d : Dataset) : Decidable d.WF := by
  unfold Dataset.WF; infer_instance

/-- The list of column names, in order (`data.columns`). -/
def colNames (d : Dataset) : List String := d.cols.map (·.name)

/-- Index of the first column with the given name (`col in data.columns`
plus label lookup; pandas label lookup returns the first match for the
unique-name datasets this pipeline handles). -/
def findColIdx (d : Dataset) (name : String) : Option Nat :=
  d.cols.findIdx? (fun c => c.name == name)

/-- The default header used with positional `getD` (never selected by
the theorems, which bound indices by `d.cols.length`). -/
def defMeta : ColMeta := ⟨"", Dtype.obj⟩

/-- The values of column `i`, top to bottom (`data[col]`). -/
def columnValues (d : Dataset) (i : Nat) : List Cell :=
  d.rows.map (fun r => r.getD i none)

/-- The values of the first column with the given name, if any. -/
def getColByName (d : Dataset) (name : String) : Option (List Cell) :=
  (findColIdx d name).map (columnValues d)

/-! ### Character and string helpers (Python `str` operations) -/

/-- Python `str.lower`, ASCII-wise: map `A`–`Z` (codes 65–90) to
`a`–`z`. -/
def lowerChar (c : Char) : Char :=
  if 65 ≤ c.toNat ∧ c.toNat ≤ 90 then Char.ofNat (c.toNat + 32) else c

/-- Python `str.lower` on a whole string. -/
def lowerStr (s : String) : String := String.mk (s.toList.map lowerChar)

/-- Python whitespace (`\s`, `str.strip`): space, tab, newline,
carriage return, vertical tab, form feed. -/
def spaceChar (c : Char) : Bool :=
  c == ' ' || c == '\t' || c == '\n' || c == '\r' || c == '\x0b' || c == '\x0c'

/-- Drop whitespace from both ends of a character list (Python
`str.strip`). -/
def trimList (l : List Char) : List Char :=
  ((l.dropWhile spaceChar).reverse.dropWhile spaceChar).reverse

/-- Python `str.strip`. -/
def trimStr (s : String) : String := String.mk (trimList s.toList)

/-- Substring test: does `hay` contain `pat`?  (Python `pat in hay`,
`Series.str.contains(pat, regex=False)`.) -/
def strContains (hay pat : String) : Bool :=
  decide (pat.toList <:+: hay.toList)

/-! ### Column classification (`_identify_text_columns`,
`_identify_numeric_columns`, data_cleaner.py lines 385–425)

The regexes `.*(?:kw1|…|kwn).*` over the lowercased name are substring
tests for the keywords. -/

/-- Keywords of `_text_columns_pattern`. -/
def textKeywords : List String :=
  ["nombre", "titulo", "carrera", "institucion", "region",
   "provincia", "comuna", "area", "modalidad", "sede"]

/-- Keywords of `_numeric_columns_pattern`. -/
def numericKeywords : List String :=
  ["codigo", "cantidad", "ano", "mes", "edad"]

/-- Does the lowercased name contain one of the keywords? -/
def nameMatchesAny (name : String) (kws : List String) : Bool :=
  kws.any (fun k => strContains (lowerStr name) k)

/-- `_identify_text_columns`: name matches the text pattern, or (elif)
the dtype is `object`. -/
def identify_text_columns (d : Dataset) : List String :=
  (d.cols.filter
    (fun c => nameMatchesAny c.name textKeywords || c.dtype == Dtype.obj)).map (·.name)

/-- `_identify_numeric_columns`: name matches the numeric pattern, or
(elif) the dtype is numeric. -/
def identify_numeric_columns (d : Dataset) : List String :=
  (d.cols.filter
    (fun c => nameMatchesAny c.name numericKeywords || c.dtype == Dtype.numeric)).map (·.name)

/-! ### Column-name standardization (`_standardize_column_names`,
data_cleaner.py lines 123–159)

The four regex substitutions are modelled character-wise:
`re.sub(r'[^\w\s]', '_', s)` replaces every single character that is
neither a word character nor whitespace by `_`; `re.sub(r'\s+', '_', s)`
replaces every maximal whitespace run by one `_`; `re.sub(r'_+', '_', s)`
collapses underscore runs; `str.strip('_')` drops underscores at both
ends.  Python word characters (`\w`) are modelled ASCII-wise as
alphanumerics plus `_`. -/

/-- Python regex `\w` (ASCII-wise): letters, digits, underscore. -/
def wordChar (c : Char) : Bool :=
  (65 ≤ c.toNat && c.toNat ≤ 90) || (97 ≤ c.toNat && c.toNat ≤ 122)
    || (48 ≤ c.toNat && c.toNat ≤ 57) || c == '_'

/-- Replace each maximal run of characters satisfying `p` by the single
character `rep`; the `Bool` argument records whether the previous
character was part of such a run. -/
def collapseRunsAux (p : Char → Bool) (rep : Char) : Bool → List Char → List Char
  | _, [] => []
  | inRun, c :: rest =>
    if p c then
      if inRun then collapseRunsAux p rep true rest
      else rep :: collapseRunsAux p rep true rest
    else c :: collapseRunsAux p rep false rest

/-- Replace each maximal run of characters satisfying `p` by `rep`
(model of `re.sub(p+, rep, s)`). -/
def collapseRuns (p : Char → Bool) (rep : Char) (l : List Char) : List Char :=
  collapseRunsAux p rep false l

/-- Drop the character `ch` from both ends (Python `str.strip(ch)`). -/
def stripChar (ch : Char) (l : List Char) : List Char :=
  ((l.dropWhile (· == ch)).reverse.dropWhile (· == ch)).reverse

/-- The per-name normalization of `_standardize_column_names`: lowercase,
replace each non-word non-space character by `_`, replace whitespace runs
by `_`, collapse `_` runs, strip `_` from both ends. -/
def standardize_name (s : String) : String :=
  let l1 := s.toList.map lowerChar
  let l2 := l1.map (fun c => if wordChar c || spaceChar c then c else '_')
  let l3 := collapseRuns spaceChar '_' l2
  let l4 := collapseRuns (· == '_') '_' l3
  String.mk (stripChar '_' l4)

/-- `_standardize_column_names`: apply `standardize_name` to every
column name. -/
def standardize_column_names (d : Dataset) : Dataset :=
  { cols := d.cols.map (fun c => { c with name := standardize_name c.name }),
    rows := d.rows }

/-! ### Text-column cleaning (`_clean_text_columns`, data_cleaner.py
lines 161–209) -/

/-- Python `str()` of a cell, as produced by `Series.astype(str)`:
`NaN` prints as `"nan"`.  The exact float formatting of Python is
immaterial to the claims; numbers print via `toString`. -/
def pyStrOfCell : Cell → String
  | none => "nan"
  | some (Scalar.str s) => s
  | some (Scalar.num q) => toString q

/-- The literal strings `_clean_text_columns` maps back to `NaN`. -/
def nanLiterals : List String := ["nan", "None", "null", "NULL", "NaN"]

/-- Collapse internal whitespace runs to a single space
(`re.sub(r'\s+', ' ', s)` via `Series.str.replace`). -/
def collapseWs (s : String) : String :=
  String.mk (collapseRuns spaceChar ' ' s.toList)

/-- ASCII letter (used by `str.title` word boundaries). -/
def alphaChar (c : Char) : Bool :=
  (65 ≤ c.toNat && c.toNat ≤ 90) || (97 ≤ c.toNat && c.toNat ≤ 122)

/-- Python `str.upper`, ASCII-wise (used by `str.title`). -/
def upperChar (c : Char) : Char :=
  if 97 ≤ c.toNat ∧ c.toNat ≤ 122 then Char.ofNat (c.toNat - 32) else c

/-- Python `str.title`: the first letter of each alphabetic run is
uppercased and the rest lowercased.  The `Bool` records whether the
previous character was alphabetic. -/
def titleAux : Bool → List Char → List Char
  | _, [] => []
  | prevAlpha, c :: rest =>
    (if alphaChar c then (if prevAlpha then lowerChar c else upperChar c) else c)
      :: titleAux (alphaChar c) rest

/-- Python `str.title`. -/
def titleCase (s : String) : String := String.mk (titleAux false s.toList)

/-- Per-cell transformation of `_clean_text_columns` on a text column:
`astype(str)`, literal-`nan` replacement, strip, whitespace collapse,
and title-casing for name-like columns. -/
def textCleanCell (applyTitle : Bool) (c : Cell) : Cell :=
  let s := pyStrOfCell c
  if nanLiterals.contains s then none
  else
    let s1 := collapseWs (trimStr s)
    some (Scalar.str (if applyTitle then titleCase s1 else s1))

/-- Does `_clean_text_columns` title-case this column
(`'nombre'`/`'titulo'`/`'carrera'` in the lowercased name)? -/
def titleKeyword (name : String) : Bool :=
  nameMatchesAny name ["nombre", "titulo", "carrera"]

/-- `_clean_text_columns`.  The source loops over the text columns of
the input (identified once) and rewrites each in place; the loop bodies
touch disjoint columns, so it is modelled as one index-wise map.  A
processed column has `object` dtype afterwards (`astype(str)`). -/
def clean_text_columns (d : Dataset) : Dataset :=
  let isText : Nat → Bool := fun i =>
    let c := d.cols.getD i defMeta
    nameMatchesAny c.name textKeywords || c.dtype == Dtype.obj
  { cols := (d.cols.mapIdx (fun i c => if isText i then { c with dtype := Dtype.obj } else c)),
    rows := d.rows.map (fun r =>
      r.mapIdx (fun i c =>
        if isText i then textCleanCell (titleKeyword (d.cols.getD i defMeta).name) c
        else c)) }

/-! ### Column statistics (pandas `median`, `quantile`, `mode`) -/

/-- The numeric values of a column, missing entries skipped (pandas
numeric reductions ignore `NaN`).  String cells cannot occur in the
columns these reductions are applied to (pandas would raise); they are
skipped here and excluded by the well-formedness hypotheses of the
theorems. -/
def colRats (vals : List Cell) : List ℚ :=
  vals.filterMap (fun c => match c with
    | some (Scalar.num v) => some v
    | _ => none)

/-- Sort a list of rationals ascending (pandas sorts before computing
order statistics). -/
def sortQ (l : List ℚ) : List ℚ := l.insertionSort (· ≤ ·)

/-- pandas `Series.median`: the middle value, or the mean of the two
middle values, of the sorted non-missing data; `none` when there is no
data. -/
def medianQ (l : List ℚ) : Option ℚ :=
  match l with
  | [] => none
  | _ =>
    let s := sortQ l
    let n := s.length
    if n % 2 = 1 then some (s.getD (n / 2) 0)
    else some ((s.getD (n / 2 - 1) 0 + s.getD (n / 2) 0) / 2)

/-- Linear interpolation into a sorted list at (rational) position
`pos`, as pandas `quantile(q)` does at position `(n-1)·q`. -/
def interpAt (s : List ℚ) (pos : ℚ) : ℚ :=
  let i := (⌊pos⌋).toNat
  if i + 1 < s.length then
    s.getD i 0 + (pos - (i : ℚ)) * (s.getD (i + 1) 0 - s.getD i 0)
  else s.getD i 0

/-- pandas `Series.quantile(q)` with the default linear interpolation;
`none` when there is no non-missing data. -/
def quantileQ (l : List ℚ) (q : ℚ) : Option ℚ :=
  match l with
  | [] => none
  | _ => some (interpAt (sortQ l) (((l.length : ℚ) - 1) * q))

/-- Ordering used by pandas `mode` to sort candidate values; values of
distinct kinds never share a column in this pipeline (`num` ordered
before `str` arbitrarily). -/
def scalarLtB : Scalar → Scalar → Bool
  | Scalar.num p, Scalar.num q => decide (p < q)
  | Scalar.str s, Scalar.str t => decide (s < t)
  | Scalar.num _, Scalar.str _ => true
  | Scalar.str _, Scalar.num _ => false

/-- pandas `Series.mode()[0]`: among the non-missing values, the most
frequent one, ties resolved to the least value (pandas returns the
modes sorted ascending). -/
def modeScalar (vals : List Scalar) : Option Scalar :=
  vals.dedup.foldl
    (fun best x =>
      match best with
      | none => some x
      | some b =>
        if vals.count x > vals.count b
            || (vals.count x = vals.count b && scalarLtB x b) then some x
        else some b)
    none

/-! ### Missing-value handling (`_handle_missing_values`,
data_cleaner.py lines 211–260)

The source computes the per-column missing counts once on the input,
then loops over a snapshot of the input's columns, dropping or filling
each in place.  Each iteration decides from the column's own original
values, name and dtype (drops and fills never touch other columns, and
a column is processed at most once), so the loop is modelled as one
per-column action computed on the input: drop the column when more than
90% of it is missing, otherwise fill its missing entries. -/

/-- Number of missing entries of a column (`isnull().sum()`). -/
def missingCount (vals : List Cell) : Nat :=
  (vals.filter (fun c => c.isNone)).length

/-- The non-missing values of a column (`dropna()`). -/
def nonMissing (vals : List Cell) : List Scalar := vals.filterMap id

/-- The action `_handle_missing_values` takes on one column. -/
inductive MissAction where
  | dropCol
  | fillWith (v : Scalar)
  | keep
deriving DecidableEq, Repr

/-- Decide the action for column `i`: nothing when nothing is missing;
drop when the missing share exceeds 90%; otherwise `0`/median for
numeric-classified columns (`0` when the name contains `cantidad`) and
mode/`"Unknown"` for `object`-dtype columns.  An all-missing numeric
column keeps its values (`fillna` with the undefined median of no data
fills nothing). -/
def missAction (d : Dataset) (i : Nat) : MissAction :=
  let c := d.cols.getD i defMeta
  let vals := columnValues d i
  let mc := missingCount vals
  if mc = 0 then MissAction.keep
  else if ((mc : ℚ) / (d.rows.length : ℚ)) * 100 > 90 then MissAction.dropCol
  else if nameMatchesAny c.name numericKeywords || c.dtype == Dtype.numeric then
    if strContains (lowerStr c.name) "cantidad" then MissAction.fillWith (Scalar.num 0)
    else
      match medianQ (colRats vals) with
      | some m => MissAction.fillWith (Scalar.num m)
      | none => MissAction.keep
  else if c.dtype == Dtype.obj then
    MissAction.fillWith
      (match modeScalar (nonMissing vals) with
       | some v => v
       | none => Scalar.str "Unknown")
  else MissAction.keep

/-- Apply a fill action to one cell (`fillna`: only missing cells are
replaced). -/
def applyFill (a : MissAction) (c : Cell) : Cell :=
  match a with
  | MissAction.fillWith v => match c with | none => some v | some x => some x
  | _ => c

/-- `_handle_missing_values`: drop the `dropCol` columns, fill the
rest. -/
def handle_missing_values (d : Dataset) : Dataset :=
  let ks := (List.range d.cols.length).filter (fun i => missAction d i ≠ MissAction.dropCol)
  { cols := ks.map (fun i => d.cols.getD i defMeta),
    rows := d.rows.map (fun r => ks.map (fun i => applyFill (missAction d i) (r.getD i none))) }

/-! ### Data-type standardization (`_standardize_data_types`,
data_cleaner.py lines 262–308) -/

/-- Value of the decimal digits of `ds` read as a natural number. -/
def natOfDigits (ds : List Char) : ℕ :=
  ds.foldl (fun a c => a * 10 + (c.toNat - 48)) 0

/-- `pd.to_numeric(·, errors='coerce')` on one string: parse an
optionally signed decimal literal, `none` on failure (scientific
notation is immaterial to the claims and not modelled). -/
def parse_num (s : String) : Option ℚ :=
  let t := trimList s.toList
  let signed : ℤ × List Char :=
    match t with
    | '-' :: r => (-1, r)
    | '+' :: r => (1, r)
    | r => (1, r)
  let ds := signed.2.takeWhile Char.isDigit
  let rest := signed.2.dropWhile Char.isDigit
  if ds.isEmpty then none
  else
    match rest with
    | [] => some ((signed.1 : ℚ) * natOfDigits ds)
    | '.' :: fs =>
      if fs.all Char.isDigit then
        some ((signed.1 : ℚ) * ((natOfDigits ds : ℚ) + (natOfDigits fs : ℚ) / 10 ^ fs.length))
      else none
    | _ => none

/-- `pd.to_numeric(·, errors='coerce')` on one cell. -/
def toNumericCell (c : Cell) : Cell :=
  match c with
  | none => none
  | some (Scalar.num q) => some (Scalar.num q)
  | some (Scalar.str s) =>
    match parse_num s with
    | some q => some (Scalar.num q)
    | none => none

/-- Truncation toward zero (numpy float→int casting). -/
def ratTrunc (q : ℚ) : ℤ := if 0 ≤ q then q.floor else q.ceil

/-- Does `_standardize_data_types` coerce this column to integer
(`'ano'`/`'mes'`/`'cantidad'`/`'codigo'` in the lowercased name)? -/
def intKeyword (name : String) : Bool :=
  nameMatchesAny name ["ano", "mes", "cantidad", "codigo"]

/-- The integer coercion `fillna(0).astype('Int64')` on one cell. -/
def intCoerceCell (c : Cell) : Cell :=
  match c with
  | none => some (Scalar.num 0)
  | some (Scalar.num q) => some (Scalar.num (ratTrunc q : ℚ))
  | some s => some s

/-- `_standardize_data_types`: first coerce every numeric-classified
column (classification on this step's input) to numeric, with the
integer columns additionally `fillna(0).astype('Int64')`; then coerce
every text-classified column (classification on the intermediate
result, whose dtypes the first phase changed) to string, mapping the
literal `"nan"` back to missing.  Both loops touch disjoint columns per
iteration and are modelled as index-wise maps. -/
def standardize_data_types (d : Dataset) : Dataset :=
  let isNum : Nat → Bool := fun i =>
    let c := d.cols.getD i defMeta
    nameMatchesAny c.name numericKeywords || c.dtype == Dtype.numeric
  let d1 : Dataset :=
    { cols := d.cols.mapIdx (fun i c => if isNum i then { c with dtype := Dtype.numeric } else c),
      rows := d.rows.map (fun r => r.mapIdx (fun i c =>
        if isNum i then
          let c1 := toNumericCell c
          if intKeyword (d.cols.getD i defMeta).name then intCoerceCell c1 else c1
        else c)) }
  let isText : Nat → Bool := fun i =>
    let c := d1.cols.getD i defMeta
    nameMatchesAny c.name textKeywords || c.dtype == Dtype.obj
  { cols := d1.cols.mapIdx (fun i c => if isText i then { c with dtype := Dtype.obj } else c),
    rows := d1.rows.map (fun r => r.mapIdx (fun i c =>
      if isText i then
        let s := pyStrOfCell c
        if s == "nan" then none else some (Scalar.str s)
      else c)) }

/-! ### Duplicate removal (`_remove_duplicates`, data_cleaner.py lines
310–335; also `drop_duplicates`/`duplicated` in the validator) -/

/-- Keep the first occurrence of each row (`drop_duplicates`). -/
def dedupKeepFirst {α : Type} [DecidableEq α] : List α → List α :=
  go []
where
  /-- `seen` holds the values already kept. -/
  go (seen : List α) : List α → List α
    | [] => []
    | x :: xs => if x ∈ seen then go seen xs else x :: go (x :: seen) xs

/-- `_remove_duplicates`. -/
def remove_duplicates (d : Dataset) : Dataset :=
  { cols := d.cols, rows := dedupKeepFirst d.rows }

/-! ### Outlier handling (`_handle_outliers`, data_cleaner.py lines
337–383)

The source loops over the numeric-classified columns (identified once),
capping each in place; the loop bodies touch disjoint columns and read
only the column being capped, so the loop is modelled as one index-wise
map whose bounds come from the input columns. -/

/-- One capping pass: `np.where(v < lo, lo, v)` then
`np.where(v > hi, hi, v)`; `NaN` compares false and is kept. -/
def capCell (lo hi : ℚ) (c : Cell) : Cell :=
  match c with
  | some (Scalar.num v) =>
    let w := if v < lo then lo else v
    some (Scalar.num (if hi < w then hi else w))
  | c => c

/-- The cell transformation `_handle_outliers` applies at column `i`:
identity except on a numeric-classified column not named exactly
`codigo` or `ano` that has at least one out-of-bounds value, where
values are capped into `[Q1 − 1.5·IQR, Q3 + 1.5·IQR]`. -/
def outlierCellMap (d : Dataset) (i : Nat) : Cell → Cell :=
  let c := d.cols.getD i defMeta
  if (identify_numeric_columns d).contains c.name
      && !(["codigo", "ano"].contains c.name) then
    let rats := colRats (columnValues d i)
    match quantileQ rats (1/4), quantileQ rats (3/4) with
    | some q1, some q3 =>
      let iqr := q3 - q1
      let lo := q1 - 3/2 * iqr
      let hi := q3 + 3/2 * iqr
      if rats.any (fun v => v < lo || hi < v) then capCell lo hi else id
    | _, _ => id
  else id

/-- `_handle_outliers`. -/
def handle_outliers (d : Dataset) : Dataset :=
  { cols := d.cols,
    rows := d.rows.map (fun r => r.mapIdx (fun i c => outlierCellMap d i c)) }

/-! ### The cleaner's public contract (`DataCleaner.transform` and
`DataCleaner.validate_input`, data_cleaner.py lines 36–121) -/

/-- A domain error carrying the failing step's identifier
(`TransformationError(transformation_step=...)`). -/
structure TransformError where
  step : String
deriving DecidableEq, Repr

/-- `DataCleaner.validate_input`: reject `None`, an empty frame
(`df.empty`: zero rows or zero columns), zero columns, zero rows.  In
this total model the checks never themselves raise. -/
def cleaner_validate_input (o : Option Dataset) : Bool :=
  match o with
  | none => false
  | some d =>
    if d.rows.isEmpty || d.cols.isEmpty then false
    else if d.cols.isEmpty then false
    else if d.rows.isEmpty then false
    else true

/-- The fixed cleaning pipeline of `DataCleaner.transform` (steps 1–6
in source order). -/
def cleaner_pipeline (d : Dataset) : Dataset :=
  handle_outliers
    (remove_duplicates
      (standardize_data_types
        (handle_missing_values
          (clean_text_columns
            (standardize_column_names d)))))

/-- `DataCleaner.transform`: reject inputs failing `validate_input`
with a `TransformationError` tagged `input_validation`, otherwise run
the six cleaning steps.  The embedded steps are total functions, so the
source's wrapper for unexpected step exceptions has no failing case
here. -/
def cleaner_transform (o : Option Dataset) : Except TransformError Dataset :=
  if cleaner_validate_input o then
    match o with
    | some d => Except.ok (cleaner_pipeline d)
    | none => Except.error ⟨"input_validation"⟩
  else Except.error ⟨"input_validation"⟩

/-! ### Regional filter (`transformers/regional_filter.py`) -/

/-- `RegionalFilter._regional_variations`: lookup table of accepted
spellings keyed by the lowercased target. -/
def regionalVariations : List (String × List String) :=
  [("los rios",
    ["los ríos", "los rios", "de los ríos", "de los rios", "región de los ríos"]),
   ("los ríos",
    ["los ríos", "los rios", "de los ríos", "de los rios", "región de los ríos"])]

/-- The accepted spellings for a target region:
`variations = dict.get(target.lower().strip(), [target])` followed by
`variations.append(target)`. -/
def variations_of (target : String) : List String :=
  let key := trimStr (lowerStr target)
  (((regionalVariations.find? (fun p => p.1 == key)).map (·.2)).getD [target]) ++ [target]

/-- `_find_region_column`: the first column whose lowercased name
contains `region`, `reg` or `administrativa` (the regexes
`.*region.*` / `.*reg.*` / `.*administrativa.*` under `re.match`). -/
def find_region_column (d : Dataset) : Option Nat :=
  d.cols.findIdx? (fun c =>
    strContains (lowerStr c.name) "region"
      || strContains (lowerStr c.name) "reg"
      || strContains (lowerStr c.name) "administrativa")

/-- Does a region cell match the target?
`value.str.lower().str.strip().str.contains(variation.lower(), na=False,
regex=False)` for some accepted spelling: missing and non-string cells
never match. -/
def regionCellMatches (target : String) (c : Cell) : Bool :=
  match c with
  | some (Scalar.str s) =>
    (variations_of target).any (fun v =>
      strContains (trimStr (lowerStr s)) (lowerStr v))
  | _ => false

/-- `_filter_by_region`: fail when no region column is identified, else
keep exactly the rows whose region value matches some accepted
spelling. -/
def filter_by_region (d : Dataset) (target : String) : Except TransformError Dataset :=
  match find_region_column d with
  | none => Except.error ⟨"region_column_detection"⟩
  | some i =>
    Except.ok { cols := d.cols,
                rows := d.rows.filter (fun r => regionCellMatches target (r.getD i none)) }

/-- The keys `validate_criteria` recognizes. -/
def validKeys : List String := ["region", "provincia", "comuna", "institucion", "carrera"]

/-- First criteria value bound to a key (`criteria[key]`). -/
def lookupCrit (cr : List (String × Scalar)) (k : String) : Option Scalar :=
  (cr.find? (fun p => p.1 == k)).map (·.2)

/-- `RegionalFilter.validate_criteria`: reject an empty mapping; warn
(only) about unknown keys; when a `region` key is present its value
must be a string with non-empty strip. -/
def validate_criteria (cr : List (String × Scalar)) : Bool :=
  if cr.isEmpty then false
  else
    match lookupCrit cr "region" with
    | some (Scalar.str s) => !(trimStr s).isEmpty
    | some _ => false
    | none => true

/-- One iteration of `RegionalFilter.filter`'s criteria loop: for a
non-`region` key naming an existing column, keep the rows whose cell
there equals the criteria value exactly; other keys change nothing.
(A `region` criteria value that is not a string cannot reach here:
`validate_criteria` rejects it.) -/
def critStep (acc : Except TransformError Dataset) (p : String × Scalar) :
    Except TransformError Dataset :=
  match acc with
  | Except.error e => Except.error e
  | Except.ok dd =>
    if p.1 ≠ "region" then
      match findColIdx dd p.1 with
      | some i =>
        Except.ok { cols := dd.cols,
                    rows := dd.rows.filter (fun r => r.getD i none == some p.2) }
      | none => Except.ok dd
    else Except.ok dd

/-- `RegionalFilter.filter`: validate the criteria (failing with a
`criteria_validation` `TransformationError`), apply the fuzzy region
filter when a `region` key is present, then an exact-equality filter
for every other key naming an existing column.  Unknown keys that name
no column leave the data untouched. -/
def filter_data (d : Dataset) (cr : List (String × Scalar)) : Except TransformError Dataset :=
  if !validate_criteria cr then Except.error ⟨"criteria_validation"⟩
  else
    let start : Except TransformError Dataset :=
      match lookupCrit cr "region" with
      | some (Scalar.str s) => filter_by_region d s
      | some _ => Except.error ⟨"criteria_validation"⟩
      | none => Except.ok d
    cr.foldl critStep start

/-! ### Quality validator (`validators/data_quality_validator.py`) -/

/-- `_validation_rules['required_columns']`. -/
def requiredColumns : List String := ["region", "ano_titulacion"]

/-- `_validation_rules['year_range']`. -/
def yearRange : ℚ × ℚ := (1990, 2030)

/-- `_validation_rules['quantity_range']`. -/
def quantityRange : ℚ × ℚ := (0, 10000)

/-- Is the cell a number inside `[lo, hi]`?  Missing compares false on
both sides (pandas `NaN`), so a missing cell is never in range. -/
def cellInRange (lo hi : ℚ) (c : Cell) : Bool :=
  match c with
  | some (Scalar.num v) => decide (lo ≤ v) && decide (v ≤ hi)
  | _ => false

/-- Is the cell a number outside `[lo, hi]`?  (`v < lo or v > hi`:
pandas `NaN` comparisons are false, so a missing cell is not counted
outside either.) -/
def cellOutsideRange (lo hi : ℚ) (c : Cell) : Bool :=
  match c with
  | some (Scalar.num v) => decide (v < lo) || decide (hi < v)
  | _ => false

/-- Python `repr` of a list of strings (for the interpolated error
messages). -/
def pyListRepr (l : List String) : String :=
  "[" ++ String.intercalate ", " (l.map (fun s => "\x27" ++ s ++ "\x27")) ++ "]"

/-- Columns whose name contains the required column's name
(case-insensitively): `[c for c in data.columns if col.lower() in
c.lower()]`. -/
def similarCols (d : Dataset) (col : String) : List String :=
  (colNames d).filter (fun c => strContains (lowerStr c) (lowerStr col))

/-- `_validate_structure` (errors only; the boolean is derived):
empty-frame check, required-column checks with near-miss search,
completely-empty-column check. -/
def validate_structure (d : Dataset) : List String :=
  if d.rows.isEmpty || d.cols.isEmpty then ["DataFrame is empty"]
  else
    let simErrs := requiredColumns.filterMap (fun col =>
      if (colNames d).contains col then none
      else
        let sim := similarCols d col
        if sim.isEmpty then none
        else some ("Required column \x27" ++ col ++ "\x27 not found. Similar columns: "
                    ++ pyListRepr sim))
    let missingReq := requiredColumns.filter (fun col =>
      !(colNames d).contains col && (similarCols d col).isEmpty)
    let emptyCols := (List.range d.cols.length).filterMap (fun i =>
      if (columnValues d i).all (fun c => c.isNone) then some ((d.cols.getD i defMeta).name)
      else none)
    simErrs
      ++ (if missingReq.isEmpty then []
          else ["Missing required columns: " ++ pyListRepr missingReq])
      ++ (if emptyCols.isEmpty then []
          else ["Completely empty columns found: " ++ pyListRepr emptyCols])

/-- `_analyze_missing_values`: per-column missing counts, zero-count
columns omitted. -/
def analyze_missing_values (d : Dataset) : List (String × Nat) :=
  (List.range d.cols.length).filterMap (fun i =>
    let mc := missingCount (columnValues d i)
    if mc > 0 then some ((d.cols.getD i defMeta).name, mc) else none)

/-- `_expected_columns` of the validator. -/
def expectedColumns : List (String × String) :=
  [("codigo_institucion", "string"), ("nombre_institucion", "string"),
   ("region", "string"), ("carrera", "string"),
   ("ano_titulacion", "integer"), ("cantidad_titulados", "integer")]

/-- Display string of a dtype (representative of `str(series.dtype)`;
the message text is not load-bearing for any claim). -/
def dtypeStr : Dtype → String
  | Dtype.obj => "object"
  | Dtype.numeric => "float64"

/-- `_validate_data_types`: in the two-dtype model, an `integer` or
`float` expectation fails on an `object` column and a `string`
expectation fails on a numeric column. -/
def validate_data_types (d : Dataset) : List String :=
  expectedColumns.filterMap (fun p =>
    match findColIdx d p.1 with
    | none => none
    | some i =>
      let dt := (d.cols.getD i defMeta).dtype
      if p.2 == "integer" || p.2 == "float" then
        if dt != Dtype.numeric then
          some ("Column \x27" ++ p.1 ++ "\x27 expected " ++ p.2 ++ ", got " ++ dtypeStr dt)
        else none
      else
        if dt != Dtype.obj then
          some ("Column \x27" ++ p.1 ++ "\x27 expected string, got " ++ dtypeStr dt)
        else none)

/-- Is the region value invalid (`str.len() < 3` or all digits)?
Missing and non-string cells count false on both tests. -/
def invalidRegionCell (c : Cell) : Bool :=
  match c with
  | some (Scalar.str s) =>
    decide (s.length < 3) || (!s.isEmpty && s.toList.all Char.isDigit)
  | _ => false

/-- `_validate_business_rules`: one count-bearing message per violated
rule (year range, quantity range, region format), each only when the
column exists and at least one row violates it. -/
def validate_business_rules (d : Dataset) : List String :=
  let yearErrs :=
    match findColIdx d "ano_titulacion" with
    | some i =>
      let k := ((columnValues d i).filter (cellOutsideRange yearRange.1 yearRange.2)).length
      if k > 0 then [s!"Found {k} records with invalid graduation years"] else []
    | none => []
  let qtyErrs :=
    match findColIdx d "cantidad_titulados" with
    | some i =>
      let k := ((columnValues d i).filter (cellOutsideRange quantityRange.1 quantityRange.2)).length
      if k > 0 then [s!"Found {k} records with invalid graduate quantities"] else []
    | none => []
  let regionErrs :=
    match findColIdx d "region" with
    | some i =>
      let k := ((columnValues d i).filter invalidRegionCell).length
      if k > 0 then [s!"Found {k} records with invalid region names"] else []
    | none => []
  yearErrs ++ qtyErrs ++ regionErrs

/-- Rows flagged by `DataFrame.duplicated()`: `true` exactly on rows
equal to an earlier row. -/
def duplicatedFlags {α : Type} [DecidableEq α] : List α → List Bool :=
  go []
where
  /-- `seen` holds the rows already passed. -/
  go (seen : List α) : List α → List Bool
    | [] => []
    | x :: xs => decide (x ∈ seen) :: go (x :: seen) xs

/-- `_detect_duplicates`: `data.duplicated().sum()`. -/
def detect_duplicates (d : Dataset) : Nat :=
  (duplicatedFlags d.rows).count true

/-! ### Record-level validity estimate (`_validate_records`,
data_quality_validator.py lines 332–376)

`data.sample(n)` draws a random sample; it enters the embedding as the
list of sampled row indices, constrained in the theorems to have the
source's sample size `min 1000 n`.  The per-record check in the source
is `all(key in mapped_dict for key in ['region'])`, where `mapped_dict`
has one key per column of the frame (`row.to_dict()` keeps every
column, mapping `NaN` to `None` without removing the key) — so a
sampled row counts as valid exactly when the frame has a `region`
column, regardless of the row's values. -/

/-- The source's per-sampled-row validity check: `'region' in
mapped_dict`, i.e. the frame has a `region` column. -/
def recordValid (d : Dataset) (_i : Nat) : Bool :=
  ["region"].all (fun k => (colNames d).contains k)

/-- `_validate_records`: count the valid sampled rows; when the frame
is larger than the sample, extrapolate by
`int(len(data) * valid_count / sample_size)`. -/
def validate_records (d : Dataset) (sample : List Nat) : Nat :=
  let n := d.rows.length
  let sampleSize := min 1000 n
  let validCount := (sample.filter (fun i => recordValid d i)).length
  if n > sampleSize then
    (⌊(n : ℚ) * ((validCount : ℚ) / (sampleSize : ℚ))⌋).toNat
  else validCount

/-- Modelled from the claim (for comparison with the source): a sampled
row is counted valid exactly when it has a non-missing `region` value. -/
def specRecordValid (d : Dataset) (i : Nat) : Bool :=
  match findColIdx d "region" with
  | some j => ((d.rows.getD i []).getD j none).isSome
  | none => false

/-- The claim's sampled valid count (for comparison with the source). -/
def specValidCount (d : Dataset) (sample : List Nat) : Nat :=
  (sample.filter (fun i => specRecordValid d i)).length

/-! ### Quality report assembly (`DataQualityValidator.validate`,
data_quality_validator.py lines 56–128, and `models.DataQualityReport`) -/

/-- `models.DataQualityReport` (field for field; the score is the
derived property below). -/
structure DataQualityReport where
  total_records : Nat
  valid_records : Nat
  invalid_records : ℤ
  missing_values_by_column : List (String × Nat)
  duplicate_records : Nat
  data_types_issues : List String
  validation_errors : List String
deriving DecidableEq, Repr

/-- `DataQualityReport.data_quality_score`: `0` when there are no
records, else `valid/total · 100`. -/
def DataQualityReport.data_quality_score (r : DataQualityReport) : ℚ :=
  if r.total_records = 0 then 0
  else ((r.valid_records : ℚ) / (r.total_records : ℚ)) * 100

/-- `DataQualityValidator.validate`: assemble the report from the
sub-checks (structure errors then business-rule errors, in source
order). -/
def quality_validate (d : Dataset) (sample : List Nat) : DataQualityReport :=
  { total_records := d.rows.length
    valid_records := validate_records d sample
    invalid_records := (d.rows.length : ℤ) - (validate_records d sample : ℤ)
    missing_values_by_column := analyze_missing_values d
    duplicate_records := detect_duplicates d
    data_types_issues := validate_data_types d
    validation_errors := validate_structure d ++ validate_business_rules d }

/-! ### Rule-based hard cleaning (`DataQualityValidator.clean_data`,
data_quality_validator.py lines 130–198) -/

/-- Drop the rows with a missing value in column `name`, when that
column exists (`dropna(subset=[name])`). -/
def dropnaSubset (d : Dataset) (name : String) : Dataset :=
  match findColIdx d name with
  | some i => { cols := d.cols, rows := d.rows.filter (fun r => (r.getD i none).isSome) }
  | none => d

/-- Keep the rows whose cell in column `name` is a number inside
`[lo, hi]`, when that column exists (the boolean-mask filter
`(col >= lo) & (col <= hi)`). -/
def keepInRange (d : Dataset) (name : String) (lo hi : ℚ) : Dataset :=
  match findColIdx d name with
  | some i => { cols := d.cols, rows := d.rows.filter (fun r => cellInRange lo hi (r.getD i none)) }
  | none => d

/-- `clean_data`: drop rows missing a required column (in the
`required_columns` order), then rows with out-of-range
`ano_titulacion`, then rows with out-of-range `cantidad_titulados`,
then exact duplicates. -/
def clean_data (d : Dataset) : Dataset :=
  let d1 := (requiredColumns.foldl (fun acc col => dropnaSubset acc col) d)
  let d2 := keepInRange d1 "ano_titulacion" yearRange.1 yearRange.2
  let d3 := keepInRange d2 "cantidad_titulados" quantityRange.1 quantityRange.2
  { cols := d3.cols, rows := dedupKeepFirst d3.rows }

/-- Row test against an optional column: when column `name` exists the
cell there must satisfy `p`, and rows pass vacuously otherwise (used to
state what the per-column filters of `clean_data` keep). -/
def rowTest (d : Dataset) (name : String) (p : Cell → Bool) (r : List Cell) : Bool :=
  match findColIdx d name with
  | some i => p (r.getD i none)
  | none => true

/-! ### Concrete datasets used by counterexamples and witnesses -/

/-- A two-row frame with a `region` column (witness input). -/
def regionTwoRows : Dataset :=
  ⟨[⟨"region", Dtype.obj⟩],
   [[some (Scalar.str "Los Ríos")], [some (Scalar.str "Los Lagos")]]⟩

/-- The scenario-C dataset: graduation years `[1985, 2023, 2050]`. -/
def yearsScenario : Dataset :=
  ⟨[⟨"ano_titulacion", Dtype.numeric⟩],
   [[some (Scalar.num 1985)], [some (Scalar.num 2023)], [some (Scalar.num 2050)]]⟩

/-- A frame whose only column name contains both a textual keyword
(`region`) and a numeric keyword (`cantidad`), with one missing
value. -/
def mixedKeywordFrame : Dataset :=
  ⟨[⟨"cantidad_region", Dtype.obj⟩], [[some (Scalar.num 5)], [none]]⟩

/-- A one-row frame whose `region` value is missing: the claim's
per-record predicate (non-missing region value) rejects the row, the
source's predicate (presence of the `region` key in the row
dictionary) accepts it. -/
def missingRegionFrame : Dataset := ⟨[⟨"region", Dtype.obj⟩], [[none]]⟩

/-- A two-row frame with one `cantidad`-named numeric column, one value
missing (missing-value witness input). -/
def cantidadFrame : Dataset :=
  ⟨[⟨"cantidad_titulados", Dtype.numeric⟩], [[some (Scalar.num 7)], [none]]⟩

/-- A small frame with a region column and a numeric column (used by
the filtering and outlier witnesses). -/
def regionSample : Dataset :=
  ⟨[⟨"Region", Dtype.obj⟩, ⟨"cantidad_titulados", Dtype.numeric⟩],
   [[some (Scalar.str "Región de Los Ríos, Chile"), some (Scalar.num 1)],
    [some (Scalar.str "Los Lagos"), some (Scalar.num 2)],
    [some (Scalar.str " los rios "), some (Scalar.num 3)]]⟩

/-- The rows of `regionSample` that match the target region (the first
and third). -/
def regionSampleFiltered : Dataset :=
  ⟨[⟨"Region", Dtype.obj⟩, ⟨"cantidad_titulados", Dtype.numeric⟩],
   [[some (Scalar.str "Región de Los Ríos, Chile"), some (Scalar.num 1)],
    [some (Scalar.str " los rios "), some (Scalar.num 3)]]⟩

/-! ## Theorems -/

/-- Closed form of the record-validity estimate: since the per-row
check only tests for the presence of a `region` column, any sample of
the source's size yields the whole row count when that column exists,
and `0` otherwise. -/
theorem validate_records_closed (d : Dataset) (sample : List Nat)
    (h : sample.length = min 1000 d.rows.length) :
    validate_records d sample
      = if (colNames d).contains "region" then d.rows.length else 0 := by
  unfold validate_records recordValid
  simp only [List.all_cons, List.all_nil, Bool.and_true]
  by_cases hb : (colNames d).contains "region"
  · simp only [hb, if_true, List.filter_true, h]
    by_cases hn : d.rows.length > min 1000 d.rows.length
    · have h1000 : min 1000 d.rows.length = 1000 := by omega
      rw [h1000] at hn ⊢
      rw [if_pos hn]
      have : ((1000 : ℕ) : ℚ) / ((1000 : ℕ) : ℚ) = 1 := by norm_num
      rw [this, mul_one, Int.floor_natCast, Int.toNat_natCast]
    · rw [if_neg hn]
      omega
  · simp only [hb, if_false, List.filter_false, List.length_nil]
    by_cases hn : d.rows.length > min 1000 d.rows.length
    · rw [if_pos hn]
      norm_num
    · rw [if_neg hn]
      simp

/-! ### Claim C1 -/

/-- C1, counterexample: on a one-row dataset whose single `region`
value is missing, `_validate_records` counts the sampled row as valid
(result `1`), while the claim's per-row predicate — a non-missing
region value — counts it invalid (result `0`); so a sampled row is not
counted valid exactly when it has a non-missing region value. -/
theorem claim_C1_counterexample :
    validate_records missingRegionFrame [0] = 1
      ∧ specValidCount missingRegionFrame [0] = 0
      ∧ validate_records missingRegionFrame [0] ≠ specValidCount missingRegionFrame [0] := by
  refine ⟨by decide, by decide, by decide⟩

/-- C1, amended: the validity estimate is computed over a sample of at
most 1000 rows, but a sampled row is counted valid exactly when the
dataset has a `region` column (the row dictionary always contains the
key, whether or not the value is missing).  With the source's sample
size `min 1000 n`, the count of valid sampled rows, extrapolated by
`⌊n · fraction⌋` when `n > 1000` and taken exactly otherwise, equals
the full row count when a `region` column exists and `0` otherwise. -/
theorem claim_C1_amended (d : Dataset) (sample : List Nat)
    (h : sample.length = min 1000 d.rows.length) :
    (∀ i, recordValid d i = (colNames d).contains "region")
      ∧ validate_records d sample
          = if (colNames d).contains "region" then d.rows.length else 0 := by
  constructor
  · intro i
    simp [recordValid]
  · exact validate_records_closed d sample h

/-- C1 witness: the amended theorem applied to a concrete two-row
dataset with a `region` column and the full sample. -/
theorem claim_C1_witness :
    ([0, 1] : List Nat).length = min 1000 regionTwoRows.rows.length
      ∧ ((∀ i, recordValid regionTwoRows i = (colNames regionTwoRows).contains "region")
          ∧ validate_records regionTwoRows [0, 1]
              = if (colNames regionTwoRows).contains "region"
                then regionTwoRows.rows.length else 0) :=
  ⟨by decide, claim_C1_amended regionTwoRows [0, 1] (by decide)⟩

/-! ### Claim C2 -/

/-- C2: for every report produced by `validate` (with the source's
sample size), the derived quality score lies in `[0, 100]`, equals `0`
exactly when `total_records = 0`, equals `100·valid/total` otherwise,
and `invalid_records = total_records − valid_records`. -/
theorem claim_C2 (d : Dataset) (sample : List Nat)
    (h : sample.length = min 1000 d.rows.length) :
    0 ≤ (quality_validate d sample).data_quality_score
      ∧ (quality_validate d sample).data_quality_score ≤ 100
      ∧ ((quality_validate d sample).total_records = 0 →
          (quality_validate d sample).data_quality_score = 0)
      ∧ ((quality_validate d sample).total_records ≠ 0 →
          (quality_validate d sample).data_quality_score
            = 100 * ((quality_validate d sample).valid_records : ℚ)
                / ((quality_validate d sample).total_records : ℚ))
      ∧ (quality_validate d sample).invalid_records
          = ((quality_validate d sample).total_records : ℤ)
              - ((quality_validate d sample).valid_records : ℤ) := by
  have hv : validate_records d sample ≤ d.rows.length := by
    rw [validate_records_closed d sample h]
    split <;> omega
  have htot : (quality_validate d sample).total_records = d.rows.length := rfl
  have hval : (quality_validate d sample).valid_records = validate_records d sample := rfl
  unfold DataQualityReport.data_quality_score
  rw [htot, hval]
  by_cases h0 : d.rows.length = 0
  · refine ⟨by simp [h0], by simp [h0], fun _ => by simp [h0], fun hne => absurd h0 hne, rfl⟩
  · have hpos : (0 : ℚ) < (d.rows.length : ℚ) := by
      exact_mod_cast Nat.pos_of_ne_zero h0
    have hvq : ((validate_records d sample : ℚ)) ≤ ((d.rows.length : ℚ)) := by
      exact_mod_cast hv
    refine ⟨?_, ?_, fun habs => absurd habs h0, fun _ => ?_, rfl⟩
    · rw [if_neg h0]
      positivity
    · rw [if_neg h0]
      have hle1 : ((validate_records d sample : ℚ)) / ((d.rows.length : ℚ)) ≤ 1 :=
        (div_le_one hpos).mpr hvq
      nlinarith
    · rw [if_neg h0]
      ring

/-- C2 witness: the theorem applied to a concrete three-row dataset
with the full sample. -/
theorem claim_C2_witness :
    ([0, 1, 2] : List Nat).length = min 1000 regionSample.rows.length
      ∧ (0 ≤ (quality_validate regionSample [0, 1, 2]).data_quality_score
          ∧ (quality_validate regionSample [0, 1, 2]).data_quality_score ≤ 100
          ∧ ((quality_validate regionSample [0, 1, 2]).total_records = 0 →
              (quality_validate regionSample [0, 1, 2]).data_quality_score = 0)
          ∧ ((quality_validate regionSample [0, 1, 2]).total_records ≠ 0 →
              (quality_validate regionSample [0, 1, 2]).data_quality_score
                = 100 * ((quality_validate regionSample [0, 1, 2]).valid_records : ℚ)
                    / ((quality_validate regionSample [0, 1, 2]).total_records : ℚ))
          ∧ (quality_validate regionSample [0, 1, 2]).invalid_records
              = ((quality_validate regionSample [0, 1, 2]).total_records : ℤ)
                  - ((quality_validate regionSample [0, 1, 2]).valid_records : ℤ)) :=
  ⟨by decide, claim_C2 regionSample [0, 1, 2] (by decide)⟩

/-! ### Claim C3 -/

/-- `dropnaSubset` as a single row filter (vacuous when the column is
absent). -/
theorem dropnaSubset_eq (d : Dataset) (name : String) :
    dropnaSubset d name
      = ⟨d.cols, d.rows.filter (rowTest d name (fun c => c.isSome))⟩ := by
  unfold dropnaSubset rowTest
  cases h : findColIdx d name <;> simp [h]

/-- `keepInRange` as a single row filter (vacuous when the column is
absent). -/
theorem keepInRange_eq (d : Dataset) (name : String) (lo hi : ℚ) :
    keepInRange d name lo hi
      = ⟨d.cols, d.rows.filter (rowTest d name (cellInRange lo hi))⟩ := by
  unfold keepInRange rowTest
  cases h : findColIdx d name <;> simp [h]

/-- `rowTest` only looks at the column headers. -/
theorem rowTest_mk (d : Dataset) (l : List (List Cell)) :
    rowTest ⟨d.cols, l⟩ = rowTest d := rfl

/-- C3: `clean_data` drops rows with a missing required column
(`region`, then `ano_titulacion`), then rows whose `ano_titulacion` is
outside `[1990, 2030]`, then rows whose `cantidad_titulados` is outside
`[0, 10000]`, then exact duplicates keeping first occurrences —
extensionally, one filter by the conjunction of those tests in that
order, followed by duplicate removal.  On the scenario dataset with
years `[1985, 2023, 2050]`, the business-rule check reports exactly two
records with invalid graduation years and `clean_data` removes exactly
those two rows. -/
theorem claim_C3 :
    (validate_business_rules yearsScenario
        = ["Found 2 records with invalid graduation years"]
      ∧ clean_data yearsScenario
          = ⟨[⟨"ano_titulacion", Dtype.numeric⟩], [[some (Scalar.num 2023)]]⟩)
    ∧ ∀ d : Dataset,
        clean_data d
          = { cols := d.cols,
              rows := dedupKeepFirst (d.rows.filter (fun r =>
                rowTest d "region" (fun c => c.isSome) r
                && rowTest d "ano_titulacion" (fun c => c.isSome) r
                && rowTest d "ano_titulacion" (cellInRange yearRange.1 yearRange.2) r
                && rowTest d "cantidad_titulados" (cellInRange quantityRange.1 quantityRange.2) r)) } := by
  constructor
  · exact ⟨by decide, by decide⟩
  · intro d
    simp only [clean_data, requiredColumns, List.foldl_cons, List.foldl_nil,
      dropnaSubset_eq, keepInRange_eq, List.filter_filter, rowTest_mk]
    congr 1
    refine congrArg dedupKeepFirst ?_
    refine List.filter_congr ?_
    intro r _
    generalize rowTest d "region" (fun c => c.isSome) r = a
    generalize rowTest d "ano_titulacion" (fun c => c.isSome) r = b
    generalize rowTest d "ano_titulacion" (cellInRange yearRange.1 yearRange.2) r = c
    generalize rowTest d "cantidad_titulados" (cellInRange quantityRange.1 quantityRange.2) r = e
    revert a b c e
    decide

/-! ### Claim C5 -/

/-- C5: for a dataset with an identifiable region column, region
filtering keeps the columns, returns a sublist of the input rows (no
row altered or added), and every retained row's region value is a
string whose lowercased, trimmed form contains some accepted spelling
of the target (lowercased) as a substring. -/
theorem claim_C5 (d : Dataset) (target : String) (out : Dataset) (i : Nat)
    (hi : find_region_column d = some i)
    (hout : filter_by_region d target = Except.ok out) :
    out.cols = d.cols
      ∧ out.rows.Sublist d.rows
      ∧ ∀ r ∈ out.rows, ∃ s, r.getD i none = some (Scalar.str s)
          ∧ ∃ v ∈ variations_of target,
              (lowerStr v).toList <:+: (trimStr (lowerStr s)).toList := by
  unfold filter_by_region at hout
  rw [hi] at hout
  have hrows : out = ⟨d.cols,
      d.rows.filter (fun r => regionCellMatches target (r.getD i none))⟩ := by
    cases hout
    rfl
  subst hrows
  refine ⟨rfl, List.filter_sublist _, ?_⟩
  intro r hr
  have hr' : r ∈ d.rows.filter (fun r => regionCellMatches target (r.getD i none)) := hr
  have hmatch : regionCellMatches target (r.getD i none) = true := by
    simpa using List.of_mem_filter hr'
  unfold regionCellMatches at hmatch
  cases hc : r.getD i none with
  | none => rw [hc] at hmatch; exact absurd hmatch (by simp)
  | some sc =>
    cases sc with
    | num q => rw [hc] at hmatch; exact absurd hmatch (by simp)
    | str s =>
      refine ⟨s, rfl, ?_⟩
      rw [hc] at hmatch
      simp only [List.any_eq_true] at hmatch
      obtain ⟨v, hv, hvm⟩ := hmatch
      exact ⟨v, hv, of_decide_eq_true hvm⟩

/-- C5 witness: the theorem applied to a concrete dataset where two of
three rows match the target region. -/
theorem claim_C5_witness :
    find_region_column regionSample = some 0
      ∧ (regionSampleFiltered.cols = regionSample.cols
          ∧ regionSampleFiltered.rows.Sublist regionSample.rows
          ∧ ∀ r ∈ regionSampleFiltered.rows,
              ∃ s, r.getD 0 none = some (Scalar.str s)
                ∧ ∃ v ∈ variations_of "Los Ríos",
                    (lowerStr v).toList <:+: (trimStr (lowerStr s)).toList) :=
  ⟨by decide,
   claim_C5 regionSample "Los Ríos" regionSampleFiltered 0 (by decide) (by rfl)⟩

/-! ### Claim C10 -/

/-- A name not among the column names is found at no column index. -/
theorem findColIdx_eq_none_of_not_mem (d : Dataset) (k : String)
    (h : k ∉ colNames d) : findColIdx d k = none := by
  unfold findColIdx
  rw [List.findIdx?_eq_none_iff]
  intro c hc
  rw [beq_eq_false_iff_ne]
  intro heq
  exact h (heq ▸ List.mem_map_of_mem (·.name) hc)

/-- C10: `RegionalFilter.filter` rejects an empty criteria mapping with
a `criteria_validation` `TransformationError`, while non-empty criteria
made only of unknown keys are accepted, and when no criteria key names
an existing column the input dataset is returned unchanged. -/
theorem claim_C10 (d : Dataset) (cr : List (String × Scalar)) :
    filter_data d [] = Except.error ⟨"criteria_validation"⟩
      ∧ (cr ≠ [] →
          (∀ k ∈ cr.map (·.1), k ∉ validKeys) →
          (∀ k ∈ cr.map (·.1), k ∉ colNames d) →
          filter_data d cr = Except.ok d) := by
  constructor
  · rfl
  · intro hne hunknown hnocol
    have hfind : cr.find? (fun p => p.1 == "region") = none := by
      rw [List.find?_eq_none]
      intro p hp
      simp only [beq_iff_eq]
      intro heq
      exact hunknown "region" (heq ▸ List.mem_map_of_mem (·.1) hp) (by decide)
    have hregion : lookupCrit cr "region" = none := by
      unfold lookupCrit
      rw [hfind]
      rfl
    have hvc : validate_criteria cr = true := by
      unfold validate_criteria
      rw [if_neg (by simpa using hne), hregion]
    have hfold : ∀ (l : List (String × Scalar)) (dd : Dataset),
        (∀ k ∈ l.map (·.1), k ∉ colNames dd) →
        List.foldl critStep (Except.ok dd) l = Except.ok dd := by
      intro l
      induction l with
      | nil => intro dd _; rfl
      | cons p l ih =>
        intro dd hcols
        have hstep : critStep (Except.ok dd) p = Except.ok dd := by
          by_cases hp : p.1 = "region"
          · simp [critStep, hp]
          · simp [critStep, hp,
              findColIdx_eq_none_of_not_mem dd p.1 (hcols p.1 (by simp))]
        rw [List.foldl_cons, hstep]
        exact ih dd (fun k hk => hcols k (by simp [hk]))
    unfold filter_data
    rw [hvc, hregion]
    simp only [Bool.not_true, Bool.false_eq_true, if_false]
    exact hfold cr d hnocol

/-- C10 witness: the theorem applied to a one-entry criteria mapping
whose only key is unknown and names no column. -/
theorem claim_C10_witness :
    filter_data regionSample [] = Except.error ⟨"criteria_validation"⟩
      ∧ filter_data regionSample [("desconocido", Scalar.num 1)] = Except.ok regionSample :=
  ⟨(claim_C10 regionSample [("desconocido", Scalar.num 1)]).1,
   (claim_C10 regionSample [("desconocido", Scalar.num 1)]).2
     (by decide) (by decide) (by decide)⟩

/-! ### Claim C9 -/

/-- C9: `DataCleaner.transform` fails exactly when `validate_input`
rejects the input — the input is null, has zero rows, or has zero
columns — and the error carries the `input_validation` step identifier;
on every accepted input it returns the cleaned dataset (the six-step
pipeline) without failing.  The embedded cleaning steps are total, so
the source's other failure mode (an unexpected exception inside a step,
re-wrapped with that step's identifier) has no failing instance in the
model. -/
theorem claim_C9 (o : Option Dataset) :
    (cleaner_validate_input o = false ↔
        o = none ∨ ∃ d, o = some d ∧ (d.rows = [] ∨ d.cols = []))
      ∧ ((∃ e, cleaner_transform o = Except.error e) ↔ cleaner_validate_input o = false)
      ∧ (∀ e, cleaner_transform o = Except.error e → e.step = "input_validation")
      ∧ (∀ d, o = some d → d.rows ≠ [] → d.cols ≠ [] →
          cleaner_transform o = Except.ok (cleaner_pipeline d)) := by
  cases o with
  | none =>
    refine ⟨by simp [cleaner_validate_input], ?_, ?_, ?_⟩
    · constructor
      · intro _; rfl
      · intro _; exact ⟨⟨"input_validation"⟩, rfl⟩
    · intro e he
      have he' : Except.error (ε := TransformError) (α := Dataset) ⟨"input_validation"⟩
          = Except.error e := he
      cases he'
      rfl
    · intro d hd
      cases hd
  | some d =>
    cases hr : d.rows.isEmpty <;> cases hc : d.cols.isEmpty <;>
      refine ⟨?_, ?_, ?_, ?_⟩ <;>
        simp_all [cleaner_transform, cleaner_validate_input,
          List.isEmpty_iff, List.isEmpty_eq_false]

/-- C9 witness: the theorem applied to a concrete accepted input (the
pipeline runs) and to a concrete empty frame (rejected by
`validate_input`). -/
theorem claim_C9_witness :
    cleaner_transform (some regionSample) = Except.ok (cleaner_pipeline regionSample)
      ∧ cleaner_validate_input (some ⟨[], []⟩) = false :=
  ⟨(claim_C9 (some regionSample)).2.2.2 regionSample rfl (by decide) (by decide),
   (claim_C9 (some ⟨[], []⟩)).1.mpr (Or.inr ⟨⟨[], []⟩, rfl, Or.inl rfl⟩)⟩

/-! ### Claim C8 -/

/-- `Char.ofNat` on a valid code has that code. -/
theorem charToNat_ofNat_valid (n : Nat) (h : n.isValidChar) :
    (Char.ofNat n).toNat = n := by
  unfold Char.ofNat
  rw [dif_pos h]
  rfl

/-- `lowerChar` is idempotent. -/
theorem lowerChar_idem (c : Char) : lowerChar (lowerChar c) = lowerChar c := by
  unfold lowerChar
  by_cases h : 65 ≤ c.toNat ∧ c.toNat ≤ 90
  · rw [if_pos h]
    have hv : (c.toNat + 32).isValidChar := Or.inl (by omega)
    have ht : (Char.ofNat (c.toNat + 32)).toNat = c.toNat + 32 :=
      charToNat_ofNat_valid _ hv
    rw [if_neg (by rw [ht]; omega)]
  · rw [if_neg h, if_neg h]

/-- A word character is not whitespace. -/
theorem wordChar_not_space {c : Char} (h : wordChar c = true) : spaceChar c = false := by
  cases hs : spaceChar c
  · rfl
  · exfalso
    simp only [spaceChar, Bool.or_eq_true, beq_iff_eq] at hs
    rcases hs with ((((h1 | h1) | h1) | h1) | h1) | h1 <;>
      rw [h1] at h <;> exact absurd h (by decide)

/-- Characters of a collapsed list: the replacement character, or an
input character not in any collapsed run. -/
theorem mem_collapseRunsAux (p : Char → Bool) (rep : Char) :
    ∀ (l : List Char) (b : Bool) (c : Char), c ∈ collapseRunsAux p rep b l →
      c = rep ∨ (c ∈ l ∧ p c = false) := by
  intro l
  induction l with
  | nil =>
    intro b c hc
    simp [collapseRunsAux] at hc
  | cons a l ih =>
    intro b c hc
    by_cases hp : p a = true
    · cases b with
      | false =>
        simp only [collapseRunsAux, hp, if_true, Bool.false_eq_true, if_false] at hc
        rcases List.mem_cons.mp hc with h | h
        · exact Or.inl h
        · rcases ih true c h with h' | h'
          · exact Or.inl h'
          · exact Or.inr ⟨List.mem_cons_of_mem a h'.1, h'.2⟩
      | true =>
        simp only [collapseRunsAux, hp, if_true] at hc
        rcases ih true c hc with h' | h'
        · exact Or.inl h'
        · exact Or.inr ⟨List.mem_cons_of_mem a h'.1, h'.2⟩
    · simp only [collapseRunsAux, hp, if_false] at hc
      rcases List.mem_cons.mp hc with h | h
      · refine Or.inr ⟨?_, ?_⟩
        · rw [h]; exact List.mem_cons_self _ _
        · rw [h]; exact eq_false_of_ne_true hp
      · rcases ih false c h with h' | h'
        · exact Or.inl h'
        · exact Or.inr ⟨List.mem_cons_of_mem a h'.1, h'.2⟩

/-- A collapsed list has no two adjacent characters of the collapsed
class; when the run flag is set, its head is not of the class. -/
theorem chain'_collapseRunsAux (p : Char → Bool) (rep : Char) :
    ∀ (l : List Char) (b : Bool),
      List.Chain' (fun x y => ¬(p x = true ∧ p y = true)) (collapseRunsAux p rep b l)
        ∧ (b = true → ∀ c, (collapseRunsAux p rep b l).head? = some c → p c = false) := by
  intro l
  induction l with
  | nil =>
    intro b
    refine ⟨by simp [collapseRunsAux], ?_⟩
    intro _ c hc
    simp [collapseRunsAux] at hc
  | cons a l ih =>
    intro b
    by_cases hp : p a = true
    · cases b with
      | false =>
        simp only [collapseRunsAux, hp, if_true, Bool.false_eq_true, if_false]
        refine ⟨?_, by intro h; exact absurd h (by simp)⟩
        rw [List.chain'_cons']
        refine ⟨?_, (ih true).1⟩
        intro y hy hcontra
        exact absurd hcontra.2
          (by rw [(ih true).2 rfl y hy]; simp)
      | true =>
        simp only [collapseRunsAux, hp, if_true]
        exact ⟨(ih true).1, fun _ => (ih true).2 rfl⟩
    · have hpf : p a = false := eq_false_of_ne_true hp
      simp only [collapseRunsAux, hpf, Bool.false_eq_true, if_false]
      refine ⟨?_, ?_⟩
      · rw [List.chain'_cons']
        exact ⟨fun y _ hcontra => absurd hcontra.1 hp, (ih false).1⟩
      · intro _ c hc
        simp only [List.head?_cons, Option.some.injEq] at hc
        subst hc
        exact hpf

/-- Collapsing is the identity on a list with no character of the
class. -/
theorem collapseRunsAux_id (p : Char → Bool) (rep : Char) :
    ∀ (l : List Char) (b : Bool), (∀ c ∈ l, p c = false) →
      collapseRunsAux p rep b l = l := by
  intro l
  induction l with
  | nil => intro b _; rfl
  | cons a l ih =>
    intro b h
    have ha : p a = false := h a (List.mem_cons_self a l)
    simp only [collapseRunsAux, ha, Bool.false_eq_true, if_false]
    rw [ih false (fun c hc => h c (List.mem_cons_of_mem a hc))]

/-- The run flag is irrelevant when the head is not of the class. -/
theorem collapseRunsAux_true_eq_false (p : Char → Bool) (rep : Char) (l : List Char)
    (h : ∀ c, l.head? = some c → p c = false) :
    collapseRunsAux p rep true l = collapseRunsAux p rep false l := by
  cases l with
  | nil => rfl
  | cons a l =>
    have ha : p a = false := h a rfl
    simp only [collapseRunsAux, ha, Bool.false_eq_true, if_false]

/-- Collapsing is the identity on a list whose class characters are
already the replacement and never adjacent. -/
theorem collapseRuns_id_of_chain (p : Char → Bool) (rep : Char)
    (hrep : ∀ c, p c = true → c = rep) :
    ∀ l : List Char, List.Chain' (fun x y => ¬(p x = true ∧ p y = true)) l →
      collapseRuns p rep l = l := by
  intro l
  induction l with
  | nil => intro _; rfl
  | cons a l ih =>
    intro hch
    rw [List.chain'_cons'] at hch
    by_cases hp : p a = true
    · have hhead : ∀ c, l.head? = some c → p c = false := by
        intro c hc
        cases hpc : p c
        · rfl
        · exact absurd ⟨hp, hpc⟩ (hch.1 c (Option.mem_def.mpr hc))
      show collapseRunsAux p rep false (a :: l) = a :: l
      simp only [collapseRunsAux, hp, if_true, Bool.false_eq_true, if_false]
      rw [collapseRunsAux_true_eq_false p rep l hhead]
      rw [show collapseRunsAux p rep false l = collapseRuns p rep l from rfl,
        ih hch.2, hrep a hp]
    · have hpf : p a = false := eq_false_of_ne_true hp
      show collapseRunsAux p rep false (a :: l) = a :: l
      simp only [collapseRunsAux, hpf, Bool.false_eq_true, if_false]
      rw [show collapseRunsAux p rep false l = collapseRuns p rep l from rfl, ih hch.2]

/-- The head surviving `dropWhile` fails the predicate. -/
theorem head?_dropWhile_not (p : Char → Bool) :
    ∀ (l : List Char) (c : Char), (l.dropWhile p).head? = some c → p c = false := by
  intro l
  induction l with
  | nil => intro c hc; simp [List.dropWhile] at hc
  | cons a l ih =>
    intro c hc
    rw [List.dropWhile_cons] at hc
    by_cases hp : p a = true
    · rw [if_pos hp] at hc
      exact ih c hc
    · rw [if_neg hp] at hc
      simp only [List.head?_cons, Option.some.injEq] at hc
      subst hc
      exact eq_false_of_ne_true hp

/-- `dropWhile` is the identity when the head fails the predicate. -/
theorem dropWhile_eq_self_of_head (p : Char → Bool) (l : List Char)
    (h : ∀ c, l.head? = some c → p c = false) : l.dropWhile p = l := by
  cases l with
  | nil => rfl
  | cons a l =>
    rw [List.dropWhile_cons, if_neg (by simp [h a rfl])]

/-- Mapping a function that fixes every member is the identity. -/
theorem map_eq_self_of_forall (f : Char → Char) :
    ∀ l : List Char, (∀ c ∈ l, f c = c) → l.map f = l := by
  intro l
  induction l with
  | nil => intro _; rfl
  | cons a l ih =>
    intro h
    rw [List.map_cons, h a (List.mem_cons_self a l),
      ih (fun c hc => h c (List.mem_cons_of_mem a hc))]

/-- Characters survive `stripChar` only from the input. -/
theorem mem_stripChar {ch : Char} {l : List Char} {c : Char}
    (hc : c ∈ stripChar ch l) : c ∈ l := by
  unfold stripChar at hc
  rw [List.mem_reverse] at hc
  have h1 : c ∈ (l.dropWhile (· == ch)).reverse :=
    (List.dropWhile_suffix (· == ch)).sublist.subset hc
  rw [List.mem_reverse] at h1
  exact (List.dropWhile_suffix (· == ch)).sublist.subset h1

/-- `stripChar` preserves adjacency constraints (for a symmetric
relation). -/
theorem chain'_stripChar {R : Char → Char → Prop}
    (hsymm : ∀ x y, R x y → R y x) (ch : Char) {l : List Char}
    (h : List.Chain' R l) : List.Chain' R (stripChar ch l) := by
  unfold stripChar
  have h1 : List.Chain' R (l.dropWhile (· == ch)) :=
    h.suffix (List.dropWhile_suffix _)
  have h2 : List.Chain' R (l.dropWhile (· == ch)).reverse :=
    List.chain'_reverse.mpr (h1.imp (fun a b hab => hsymm a b hab))
  have h3 : List.Chain' R ((l.dropWhile (· == ch)).reverse.dropWhile (· == ch)) :=
    h2.suffix (List.dropWhile_suffix _)
  exact List.chain'_reverse.mpr (h3.imp (fun a b hab => hsymm a b hab))

/-- The first character of a stripped list is not the stripped
character. -/
theorem head?_stripChar (ch : Char) (l : List Char) (c : Char)
    (hc : (stripChar ch l).head? = some c) : (c == ch) = false := by
  unfold stripChar at hc
  rw [List.head?_reverse] at hc
  obtain ⟨pre, hpre⟩ :=
    List.dropWhile_suffix (l := (l.dropWhile (· == ch)).reverse) (· == ch)
  have hlast : (l.dropWhile (· == ch)).reverse.getLast? = some c := by
    rw [← hpre, List.getLast?_append, hc]
    rfl
  rw [List.getLast?_reverse] at hlast
  exact head?_dropWhile_not _ l c hlast

/-- The last character of a stripped list is not the stripped
character. -/
theorem getLast?_stripChar (ch : Char) (l : List Char) (c : Char)
    (hc : (stripChar ch l).getLast? = some c) : (c == ch) = false := by
  unfold stripChar at hc
  rw [List.getLast?_reverse] at hc
  exact head?_dropWhile_not _ _ c hc

/-- `standardize_name` is the identity on a string of lowercase-fixed
word characters with no two adjacent underscores and no underscore at
either end. -/
theorem standardize_name_fixed (t : List Char)
    (hmem : ∀ c ∈ t, lowerChar c = c ∧ wordChar c = true)
    (hch : List.Chain' (fun x y => ¬((x == '_') = true ∧ (y == '_') = true)) t)
    (hhead : ∀ c, t.head? = some c → (c == '_') = false)
    (hlast : ∀ c, t.getLast? = some c → (c == '_') = false) :
    standardize_name (String.mk t) = String.mk t := by
  show String.mk (stripChar '_'
      (collapseRuns (fun x => x == '_') '_'
        (collapseRuns spaceChar '_'
          (((String.mk t).toList.map lowerChar).map
            (fun c => if wordChar c || spaceChar c then c else '_')))))
    = String.mk t
  rw [show (String.mk t).toList = t from rfl]
  rw [map_eq_self_of_forall lowerChar t (fun c hc => (hmem c hc).1)]
  rw [map_eq_self_of_forall _ t
    (fun c hc => by rw [if_pos]; rw [(hmem c hc).2]; simp)]
  rw [show collapseRuns spaceChar '_' t = t from
    collapseRunsAux_id spaceChar '_' t false
      (fun c hc => wordChar_not_space (hmem c hc).2)]
  rw [collapseRuns_id_of_chain (fun c => c == '_') '_'
    (fun c hc => by simpa using hc) t hch]
  unfold stripChar
  rw [dropWhile_eq_self_of_head _ t hhead]
  rw [dropWhile_eq_self_of_head _ t.reverse
    (fun c hc => hlast c (by rwa [List.head?_reverse] at hc))]
  rw [List.reverse_reverse]

/-- C8: column-name standardization is idempotent, per name and for the
whole column-renaming step. -/
theorem claim_C8 :
    (∀ s : String, standardize_name (standardize_name s) = standardize_name s)
      ∧ ∀ d : Dataset,
          standardize_column_names (standardize_column_names d)
            = standardize_column_names d := by
  have main : ∀ s : String,
      standardize_name (standardize_name s) = standardize_name s := by
    intro s
    have hl2 : ∀ c ∈ (s.toList.map lowerChar).map
        (fun c => if wordChar c || spaceChar c then c else '_'),
        lowerChar c = c ∧ (wordChar c || spaceChar c) = true := by
      intro c hc
      rw [List.mem_map] at hc
      obtain ⟨y, hy, hyc⟩ := hc
      rw [List.mem_map] at hy
      obtain ⟨x, _, hxy⟩ := hy
      by_cases hcl : (wordChar y || spaceChar y) = true
      · rw [if_pos hcl] at hyc
        subst hyc
        exact ⟨by rw [← hxy, lowerChar_idem], hcl⟩
      · rw [if_neg hcl] at hyc
        subst hyc
        exact ⟨by decide, by decide⟩
    have hl3 : ∀ c ∈ collapseRuns spaceChar '_'
        ((s.toList.map lowerChar).map
          (fun c => if wordChar c || spaceChar c then c else '_')),
        lowerChar c = c ∧ wordChar c = true := by
      intro c hc
      rcases mem_collapseRunsAux spaceChar '_' _ false c hc with h | ⟨hmem2, hsp⟩
      · subst h
        exact ⟨by decide, by decide⟩
      · obtain ⟨hlo, hcl⟩ := hl2 c hmem2
        refine ⟨hlo, ?_⟩
        rw [Bool.or_eq_true] at hcl
        rcases hcl with h | h
        · exact h
        · exact absurd h (by rw [hsp]; simp)
    have hl4 : ∀ c ∈ collapseRuns (fun c => c == '_') '_'
        (collapseRuns spaceChar '_'
          ((s.toList.map lowerChar).map
            (fun c => if wordChar c || spaceChar c then c else '_'))),
        lowerChar c = c ∧ wordChar c = true := by
      intro c hc
      rcases mem_collapseRunsAux (fun c => c == '_') '_' _ false c hc
        with h | ⟨hmem3, _⟩
      · subst h
        exact ⟨by decide, by decide⟩
      · exact hl3 c hmem3
    have hch4 : List.Chain'
        (fun x y => ¬((x == '_') = true ∧ (y == '_') = true))
        (collapseRuns (fun c => c == '_') '_'
          (collapseRuns spaceChar '_'
            ((s.toList.map lowerChar).map
              (fun c => if wordChar c || spaceChar c then c else '_')))) :=
      (chain'_collapseRunsAux (fun c => c == '_') '_' _ false).1
    have hrepr : standardize_name s
        = String.mk (stripChar '_'
            (collapseRuns (fun c => c == '_') '_'
              (collapseRuns spaceChar '_'
                ((s.toList.map lowerChar).map
                  (fun c => if wordChar c || spaceChar c then c else '_'))))) := rfl
    rw [hrepr]
    apply standardize_name_fixed
    · intro c hc
      exact hl4 c (mem_stripChar hc)
    · exact chain'_stripChar (fun x y h hc => h ⟨hc.2, hc.1⟩) '_' hch4
    · exact head?_stripChar '_' _
    · exact getLast?_stripChar '_' _
  refine ⟨main, ?_⟩
  intro d
  unfold standardize_column_names
  refine congrArg (fun cs => Dataset.mk cs d.rows) ?_
  rw [List.map_map]
  refine List.map_congr_left ?_
  intro c _
  show ColMeta.mk (standardize_name (standardize_name c.name)) c.dtype
      = ColMeta.mk (standardize_name c.name) c.dtype
  rw [main c.name]

/-! ### Claim C4 -/

/-- `getD` through `mapIdx`. -/
theorem getD_mapIdx (f : Nat → Cell → Cell) (l : List Cell) (i : Nat) :
    (l.mapIdx f).getD i none
      = if i < l.length then f i (l.getD i none) else none := by
  by_cases h : i < l.length
  · rw [if_pos h]
    have hm : i < (l.mapIdx f).length := by simpa using h
    rw [List.getD_eq_getElem _ _ hm, List.getElem_mapIdx, List.getD_eq_getElem _ _ h]
  · rw [if_neg h]
    exact List.getD_eq_default _ _ (by simpa using Nat.le_of_not_lt h)

/-- The per-column outlier map is either the identity or a capping
map. -/
theorem outlierCellMap_cases (d : Dataset) (i : Nat) :
    outlierCellMap d i = id ∨ ∃ lo hi, outlierCellMap d i = capCell lo hi := by
  unfold outlierCellMap
  dsimp only
  by_cases hcond : ((identify_numeric_columns d).contains (d.cols.getD i defMeta).name
      && ! ["codigo", "ano"].contains (d.cols.getD i defMeta).name) = true
  · rw [if_pos hcond]
    cases quantileQ (colRats (columnValues d i)) (1/4) with
    | none => exact Or.inl rfl
    | some q1 =>
      cases quantileQ (colRats (columnValues d i)) (3/4) with
      | none => exact Or.inl rfl
      | some q3 =>
        dsimp only
        split
        · exact Or.inr ⟨_, _, rfl⟩
        · exact Or.inl rfl
  · rw [if_neg hcond]
    exact Or.inl rfl

/-- The per-column outlier map sends missing to missing. -/
theorem outlierCellMap_none (d : Dataset) (i : Nat) :
    outlierCellMap d i none = none := by
  rcases outlierCellMap_cases d i with h | ⟨lo, hi, h⟩
  · rw [h]; rfl
  · rw [h]; rfl

/-- A numeric output of `capCell` lies within the bounds. -/
theorem capCell_bounds (lo hi : ℚ) (hlohi : lo ≤ hi) (c : Cell) (v : ℚ)
    (h : capCell lo hi c = some (Scalar.num v)) : lo ≤ v ∧ v ≤ hi := by
  cases c with
  | none => simp [capCell] at h
  | some sc =>
    cases sc with
    | str s => simp [capCell] at h
    | num w =>
      simp only [capCell, Option.some.injEq, Scalar.num.injEq] at h
      subst h
      split_ifs <;> constructor <;> linarith

/-- A numeric cell contributes its value to `colRats`. -/
theorem mem_colRats {vals : List Cell} {v : ℚ}
    (h : some (Scalar.num v) ∈ vals) : v ∈ colRats vals :=
  List.mem_filterMap.mpr ⟨some (Scalar.num v), h, rfl⟩

/-- `getD` is monotone on a sorted list. -/
theorem sorted_getD_mono {s : List ℚ} (hs : s.Sorted (· ≤ ·)) {i j : Nat}
    (hij : i ≤ j) (hj : j < s.length) : s.getD i 0 ≤ s.getD j 0 := by
  have hi : i < s.length := lt_of_le_of_lt hij hj
  rw [List.getD_eq_get _ _ hi, List.getD_eq_get _ _ hj]
  exact hs.rel_get_of_le (by exact hij)

/-- Linear interpolation into a sorted list is monotone in the
position. -/
theorem interpAt_mono (s : List ℚ) (hs : s.Sorted (· ≤ ·)) (p q : ℚ)
    (hp : 0 ≤ p) (hpq : p ≤ q) (hq : q ≤ (s.length : ℚ) - 1) :
    interpAt s p ≤ interpAt s q := by
  have hq0 : 0 ≤ q := le_trans hp hpq
  have hn : 1 ≤ s.length := by
    by_contra h
    have h0 : s.length = 0 := by omega
    rw [h0] at hq
    norm_num at hq
    linarith
  have hfp0 : (0:ℤ) ≤ ⌊p⌋ := Int.floor_nonneg.mpr hp
  have hfq0 : (0:ℤ) ≤ ⌊q⌋ := Int.floor_nonneg.mpr hq0
  have hipQ : ((⌊p⌋.toNat : ℕ) : ℚ) = ((⌊p⌋ : ℤ) : ℚ) := by
    exact_mod_cast congrArg (fun z : ℤ => (z : ℚ)) (Int.toNat_of_nonneg hfp0)
  have hiqQ : ((⌊q⌋.toNat : ℕ) : ℚ) = ((⌊q⌋ : ℤ) : ℚ) := by
    exact_mod_cast congrArg (fun z : ℤ => (z : ℚ)) (Int.toNat_of_nonneg hfq0)
  have hp_ge : ((⌊p⌋.toNat : ℕ) : ℚ) ≤ p := by rw [hipQ]; exact Int.floor_le p
  have hp_lt : p < ((⌊p⌋.toNat : ℕ) : ℚ) + 1 := by rw [hipQ]; exact Int.lt_floor_add_one p
  have hq_ge : ((⌊q⌋.toNat : ℕ) : ℚ) ≤ q := by rw [hiqQ]; exact Int.floor_le q
  have hipq : ⌊p⌋.toNat ≤ ⌊q⌋.toNat := by
    have := Int.floor_le_floor (α := ℚ) hpq
    omega
  have hiqn : ⌊q⌋.toNat < s.length := by
    have h1 : ((⌊q⌋.toNat : ℕ) : ℚ) < (s.length : ℚ) := by linarith
    exact_mod_cast h1
  simp only [interpAt]
  by_cases heq : ⌊p⌋.toNat = ⌊q⌋.toNat
  · rw [heq]
    by_cases hb : ⌊q⌋.toNat + 1 < s.length
    · rw [if_pos hb, if_pos hb]
      have hd : s.getD ⌊q⌋.toNat 0 ≤ s.getD (⌊q⌋.toNat + 1) 0 :=
        sorted_getD_mono hs (by omega) hb
      have hmul : (p - ((⌊q⌋.toNat : ℕ) : ℚ)) * (s.getD (⌊q⌋.toNat + 1) 0 - s.getD ⌊q⌋.toNat 0)
          ≤ (q - ((⌊q⌋.toNat : ℕ) : ℚ)) * (s.getD (⌊q⌋.toNat + 1) 0 - s.getD ⌊q⌋.toNat 0) :=
        mul_le_mul_of_nonneg_right (by linarith) (by linarith)
      linarith
    · rw [if_neg hb, if_neg hb]
  · have hlt : ⌊p⌋.toNat < ⌊q⌋.toNat := lt_of_le_of_ne hipq heq
    have hb1 : ⌊p⌋.toNat + 1 < s.length := by omega
    rw [if_pos hb1]
    have hd : s.getD ⌊p⌋.toNat 0 ≤ s.getD (⌊p⌋.toNat + 1) 0 :=
      sorted_getD_mono hs (by omega) hb1
    have hub : s.getD ⌊p⌋.toNat 0
          + (p - ((⌊p⌋.toNat : ℕ) : ℚ)) * (s.getD (⌊p⌋.toNat + 1) 0 - s.getD ⌊p⌋.toNat 0)
        ≤ s.getD (⌊p⌋.toNat + 1) 0 := by
      nlinarith [mul_nonneg (by linarith : (0:ℚ) ≤ 1 - (p - ((⌊p⌋.toNat : ℕ) : ℚ)))
        (by linarith : (0:ℚ) ≤ s.getD (⌊p⌋.toNat + 1) 0 - s.getD ⌊p⌋.toNat 0)]
    have hmid : s.getD (⌊p⌋.toNat + 1) 0 ≤ s.getD ⌊q⌋.toNat 0 :=
      sorted_getD_mono hs (by omega) hiqn
    by_cases hb2 : ⌊q⌋.toNat + 1 < s.length
    · rw [if_pos hb2]
      have hd2 : s.getD ⌊q⌋.toNat 0 ≤ s.getD (⌊q⌋.toNat + 1) 0 :=
        sorted_getD_mono hs (by omega) hb2
      have hnn : (0:ℚ) ≤ (q - ((⌊q⌋.toNat : ℕ) : ℚ))
            * (s.getD (⌊q⌋.toNat + 1) 0 - s.getD ⌊q⌋.toNat 0) :=
        mul_nonneg (by linarith) (by linarith)
      linarith
    · rw [if_neg hb2]
      linarith

/-- The first quartile never exceeds the third. -/
theorem quantile_le_quantile (l : List ℚ) (q1 q3 : ℚ)
    (h1 : quantileQ l (1/4) = some q1) (h3 : quantileQ l (3/4) = some q3) :
    q1 ≤ q3 := by
  cases l with
  | nil => simp [quantileQ] at h1
  | cons a t =>
    simp only [quantileQ, Option.some.injEq] at h1 h3
    subst h1
    subst h3
    have hs : (sortQ (a :: t)).Sorted (· ≤ ·) :=
      List.sorted_insertionSort (· ≤ ·) (a :: t)
    have hlen : (sortQ (a :: t)).length = (a :: t).length :=
      (List.perm_insertionSort (· ≤ ·) (a :: t)).length_eq
    have hn : 1 ≤ (a :: t).length := by simp
    have hn1 : (0:ℚ) ≤ ((a :: t).length : ℚ) - 1 := by
      have : (1:ℚ) ≤ ((a :: t).length : ℚ) := by exact_mod_cast hn
      linarith
    apply interpAt_mono (sortQ (a :: t)) hs
    · positivity
    · nlinarith
    · rw [hlen]
      nlinarith

/-- Every output cell of a column of the outlier step is the
per-column outlier map of the corresponding input cell. -/
theorem mem_columnValues_handle_outliers {d : Dataset} {i : Nat} {c : Cell}
    (hc : c ∈ columnValues (handle_outliers d) i) :
    ∃ c₀ ∈ columnValues d i, c = outlierCellMap d i c₀ := by
  unfold columnValues handle_outliers at hc
  dsimp only at hc
  rw [List.map_map, List.mem_map] at hc
  obtain ⟨r, hr, hrc⟩ := hc
  simp only [Function.comp_apply] at hrc
  rw [getD_mapIdx] at hrc
  by_cases hlen : i < r.length
  · rw [if_pos hlen] at hrc
    exact ⟨r.getD i none, List.mem_map_of_mem _ hr, hrc.symm⟩
  · rw [if_neg hlen] at hrc
    refine ⟨r.getD i none, List.mem_map_of_mem _ hr, ?_⟩
    rw [List.getD_eq_default _ _ (Nat.le_of_not_lt hlen), outlierCellMap_none]
    exact hrc.symm

/-- A column whose outlier map is the identity is unchanged. -/
theorem handle_outliers_skip {d : Dataset} {i : Nat}
    (h : outlierCellMap d i = id) :
    columnValues (handle_outliers d) i = columnValues d i := by
  unfold columnValues handle_outliers
  dsimp only
  rw [List.map_map]
  refine List.map_congr_left ?_
  intro r _
  simp only [Function.comp_apply]
  rw [getD_mapIdx]
  by_cases hlen : i < r.length
  · rw [if_pos hlen, h]
    rfl
  · rw [if_neg hlen, List.getD_eq_default _ _ (Nat.le_of_not_lt hlen)]

/-- Columns named exactly `codigo` or `ano` are skipped by the outlier
step. -/
theorem outlierCellMap_excluded {d : Dataset} {i : Nat}
    (h : (d.cols.getD i defMeta).name = "codigo"
      ∨ (d.cols.getD i defMeta).name = "ano") :
    outlierCellMap d i = id := by
  unfold outlierCellMap
  dsimp only
  rw [if_neg]
  intro hcond
  have h2 := (Bool.and_eq_true _ _).mp hcond |>.2
  rcases h with h | h <;> rw [h] at h2 <;> simp at h2

/-- C4: the outlier step keeps the headers and the exact row count;
every numeric value remaining in a capped NUMERIC column (one not named
exactly `codigo` or `ano`) lies within `[Q1 − 1.5·IQR, Q3 + 1.5·IQR]`
of that column's input values; and `codigo`/`ano` columns are left
unchanged. -/
theorem claim_C4 (d : Dataset) :
    (handle_outliers d).cols = d.cols
      ∧ (handle_outliers d).rows.length = d.rows.length
      ∧ (∀ i, ((d.cols.getD i defMeta).name = "codigo"
            ∨ (d.cols.getD i defMeta).name = "ano") →
          columnValues (handle_outliers d) i = columnValues d i)
      ∧ ∀ i q1 q3,
          (identify_numeric_columns d).contains (d.cols.getD i defMeta).name = true →
          (d.cols.getD i defMeta).name ∉ (["codigo", "ano"] : List String) →
          quantileQ (colRats (columnValues d i)) (1/4) = some q1 →
          quantileQ (colRats (columnValues d i)) (3/4) = some q3 →
          ∀ v : ℚ, some (Scalar.num v) ∈ columnValues (handle_outliers d) i →
            q1 - 3/2 * (q3 - q1) ≤ v ∧ v ≤ q3 + 3/2 * (q3 - q1) := by
  refine ⟨rfl, by simp [handle_outliers], ?_, ?_⟩
  · intro i hname
    exact handle_outliers_skip (outlierCellMap_excluded hname)
  · intro i q1 q3 hnum hnotin hq1 hq3 v hv
    have hle : q1 ≤ q3 := quantile_le_quantile _ _ _ hq1 hq3
    have hlohi : q1 - 3/2 * (q3 - q1) ≤ q3 + 3/2 * (q3 - q1) := by linarith
    obtain ⟨c₀, hc₀, hmap⟩ := mem_columnValues_handle_outliers hv
    have hcf : (["codigo", "ano"].contains (d.cols.getD i defMeta).name) = false := by
      simpa using hnotin
    have hmap' : outlierCellMap d i
        = (if (colRats (columnValues d i)).any
              (fun x => decide (x < (q1 - 3/2 * (q3 - q1)))
                || decide ((q3 + 3/2 * (q3 - q1)) < x))
           then capCell (q1 - 3/2 * (q3 - q1)) (q3 + 3/2 * (q3 - q1)) else id) := by
      unfold outlierCellMap
      dsimp only
      rw [if_pos (by rw [hnum, hcf]; rfl), hq1, hq3]
    rw [hmap'] at hmap
    by_cases hany : ((colRats (columnValues d i)).any
        (fun x => decide (x < (q1 - 3/2 * (q3 - q1)))
          || decide ((q3 + 3/2 * (q3 - q1)) < x))) = true
    · rw [if_pos hany] at hmap
      exact capCell_bounds _ _ hlohi c₀ v hmap.symm
    · rw [if_neg hany, id_eq] at hmap
      rw [← hmap] at hc₀
      have hvmem : v ∈ colRats (columnValues d i) := mem_colRats hc₀
      rw [List.any_eq_true] at hany
      push_neg at hany
      have hnot := hany v hvmem
      simp only [ne_eq, Bool.or_eq_true, decide_eq_true_eq, not_or, not_lt] at hnot
      exact ⟨hnot.1, hnot.2⟩

/-- C4 witness: the bounds part of the theorem applied to the concrete
`cantidad_titulados` column (values `1, 2, 3`, quartiles `3/2` and
`5/2`) at the surviving value `1`. -/
theorem claim_C4_witness :
    (identify_numeric_columns regionSample).contains
        (regionSample.cols.getD 1 defMeta).name = true
      ∧ quantileQ (colRats (columnValues regionSample 1)) (1/4) = some (3/2)
      ∧ ((3:ℚ)/2 - 3/2 * (5/2 - 3/2) ≤ 1 ∧ (1:ℚ) ≤ 5/2 + 3/2 * (5/2 - 3/2)) := by
  have hcol : colRats (columnValues regionSample 1) = [1, 2, 3] := by decide
  have hq1 : quantileQ (colRats (columnValues regionSample 1)) (1/4) = some (3/2) := by
    rw [hcol]
    show some (interpAt (sortQ [1, 2, 3])
        (((([1, 2, 3] : List ℚ).length : ℚ) - 1) * (1/4))) = some (3/2)
    rw [show sortQ ([1, 2, 3] : List ℚ) = [1, 2, 3] from by decide,
      show ((([1, 2, 3] : List ℚ).length : ℚ) - 1) * (1/4) = 1/2 from by norm_num]
    unfold interpAt
    rw [show ⌊(1/2 : ℚ)⌋ = 0 from by norm_num]
    norm_num
  have hq3 : quantileQ (colRats (columnValues regionSample 1)) (3/4) = some (5/2) := by
    rw [hcol]
    show some (interpAt (sortQ [1, 2, 3])
        (((([1, 2, 3] : List ℚ).length : ℚ) - 1) * (3/4))) = some (5/2)
    rw [show sortQ ([1, 2, 3] : List ℚ) = [1, 2, 3] from by decide,
      show ((([1, 2, 3] : List ℚ).length : ℚ) - 1) * (3/4) = 3/2 from by norm_num]
    unfold interpAt
    rw [show ⌊(3/2 : ℚ)⌋ = 1 from by norm_num]
    norm_num
  have hid : outlierCellMap regionSample 1 = id := by
    unfold outlierCellMap
    dsimp only
    rw [if_pos (by decide), hq1, hq3]
    dsimp only
    rw [hcol,
      show (3:ℚ)/2 - 3/2 * ((5:ℚ)/2 - 3/2) = 0 from by norm_num,
      show (5:ℚ)/2 + 3/2 * ((5:ℚ)/2 - 3/2) = 4 from by norm_num,
      if_neg (by decide)]
  have hv : some (Scalar.num 1) ∈ columnValues (handle_outliers regionSample) 1 := by
    rw [handle_outliers_skip hid]
    decide
  exact ⟨by decide, hq1,
    (claim_C4 regionSample).2.2.2 1 (3/2) (5/2) (by decide) (by decide) hq1 hq3 1 hv⟩

/-! ### Claims C6 and C7: the missing-value step -/

/-- With unique column names, equal names force equal positions. -/
theorem colName_inj (d : Dataset) (hnodup : (colNames d).Nodup) {i j : Nat}
    (hi : i < d.cols.length) (hj : j < d.cols.length)
    (h : (d.cols.getD i defMeta).name = (d.cols.getD j defMeta).name) : i = j := by
  have hi2 : i < (colNames d).length := by simpa [colNames] using hi
  have hj2 : j < (colNames d).length := by simpa [colNames] using hj
  apply (hnodup.getElem_inj_iff).mp
  show (colNames d)[i] = (colNames d)[j]
  simp only [colNames, List.getElem_map]
  rw [List.getD_eq_getElem _ _ hi, List.getD_eq_getElem _ _ hj] at h
  exact h

/-- A column the missing-value step drops is gone from the output. -/
theorem handle_missing_dropped (d : Dataset) (hnodup : (colNames d).Nodup)
    {i : Nat} (hi : i < d.cols.length)
    (hdrop : missAction d i = MissAction.dropCol) :
    (d.cols.getD i defMeta).name ∉ colNames (handle_missing_values d) := by
  intro hmem
  unfold colNames handle_missing_values at hmem
  dsimp only at hmem
  rw [List.map_map, List.mem_map] at hmem
  obtain ⟨j, hj, hname⟩ := hmem
  have hjn : j < d.cols.length := List.mem_range.mp (List.mem_of_mem_filter hj)
  have hjk : missAction d j ≠ MissAction.dropCol := by
    simpa using List.of_mem_filter hj
  simp only [Function.comp_apply] at hname
  have hij : j = i := colName_inj d hnodup hjn hi hname
  rw [hij] at hjk
  exact hjk hdrop

/-- A column the missing-value step keeps comes out with exactly its
action applied cell-wise. -/
theorem handle_missing_col (d : Dataset) (hnodup : (colNames d).Nodup)
    {i : Nat} (hi : i < d.cols.length)
    (hkeep : missAction d i ≠ MissAction.dropCol) :
    getColByName (handle_missing_values d) ((d.cols.getD i defMeta).name)
      = some ((columnValues d i).map (applyFill (missAction d i))) := by
  set ks := (List.range d.cols.length).filter
    (fun j => missAction d j ≠ MissAction.dropCol) with hks
  have hiks : i ∈ ks := by
    rw [hks]
    exact List.mem_filter.mpr ⟨List.mem_range.mpr hi, by simpa using hkeep⟩
  have hplen : ks.indexOf i < ks.length := List.indexOf_lt_length.mpr hiks
  have hfind : findColIdx (handle_missing_values d) ((d.cols.getD i defMeta).name)
      = some (ks.indexOf i) := by
    unfold findColIdx handle_missing_values
    dsimp only
    rw [← hks, List.findIdx?_map, List.findIdx?_eq_some_iff_getElem]
    refine ⟨hplen, ?_, ?_⟩
    · simp only [Function.comp_apply]
      rw [List.getElem_indexOf hplen]
      exact beq_self_eq_true _
    · intro j hji
      simp only [Function.comp_apply]
      have hjlt : j < ks.length := Nat.lt_trans hji hplen
      have hksj_mem : ks[j] ∈ ks := List.getElem_mem _
      have hksjn : ks[j] < d.cols.length :=
        List.mem_range.mp (List.mem_of_mem_filter hksj_mem)
      have hne : ks[j] ≠ i := by
        intro heq
        have h2 := List.not_of_lt_findIdx (p := (· == i)) hji
        rw [heq] at h2
        simp at h2
      intro hcontra
      rw [beq_iff_eq] at hcontra
      exact hne (colName_inj d hnodup hksjn hi hcontra)
  unfold getColByName
  rw [hfind]
  show some (columnValues (handle_missing_values d) (ks.indexOf i)) = _
  congr 1
  unfold columnValues handle_missing_values
  dsimp only
  rw [← hks, List.map_map, List.map_map]
  refine List.map_congr_left ?_
  intro r _
  simp only [Function.comp_apply]
  rw [List.getD_eq_getElem _ _ (by simpa using hplen), List.getElem_map,
    List.getElem_indexOf hplen]

/-- The action on a column with missing values above the 90% share is
to drop it. -/
theorem missAction_drop (d : Dataset) (i : Nat)
    (hmc : 0 < missingCount (columnValues d i))
    (hpct : ((missingCount (columnValues d i) : ℚ) / (d.rows.length : ℚ)) * 100 > 90) :
    missAction d i = MissAction.dropCol := by
  unfold missAction
  rw [if_neg (by omega), if_pos hpct]

/-- The action on a numeric-classified `cantidad` column is the
zero-fill. -/
theorem missAction_cantidad (d : Dataset) (i : Nat)
    (hmc : 0 < missingCount (columnValues d i))
    (hpct : ¬(((missingCount (columnValues d i) : ℚ) / (d.rows.length : ℚ)) * 100 > 90))
    (hnum : (nameMatchesAny (d.cols.getD i defMeta).name numericKeywords
      || (d.cols.getD i defMeta).dtype == Dtype.numeric) = true)
    (hcant : strContains (lowerStr (d.cols.getD i defMeta).name) "cantidad" = true) :
    missAction d i = MissAction.fillWith (Scalar.num 0) := by
  unfold missAction
  rw [if_neg (by omega), if_neg hpct, if_pos hnum, if_pos hcant]

/-- The action on any other numeric-classified column is the
median-fill. -/
theorem missAction_median (d : Dataset) (i : Nat) (m : ℚ)
    (hmc : 0 < missingCount (columnValues d i))
    (hpct : ¬(((missingCount (columnValues d i) : ℚ) / (d.rows.length : ℚ)) * 100 > 90))
    (hnum : (nameMatchesAny (d.cols.getD i defMeta).name numericKeywords
      || (d.cols.getD i defMeta).dtype == Dtype.numeric) = true)
    (hcant : strContains (lowerStr (d.cols.getD i defMeta).name) "cantidad" = false)
    (hm : medianQ (colRats (columnValues d i)) = some m) :
    missAction d i = MissAction.fillWith (Scalar.num m) := by
  unfold missAction
  rw [if_neg (by omega), if_neg hpct, if_pos hnum,
    if_neg (by simp only [hcant]; simp), hm]

/-- The action on an `object` column outside the numeric
classification is the mode-fill (`"Unknown"` when there is no
non-missing value). -/
theorem missAction_text (d : Dataset) (i : Nat)
    (hmc : 0 < missingCount (columnValues d i))
    (hpct : ¬(((missingCount (columnValues d i) : ℚ) / (d.rows.length : ℚ)) * 100 > 90))
    (hnum : (nameMatchesAny (d.cols.getD i defMeta).name numericKeywords
      || (d.cols.getD i defMeta).dtype == Dtype.numeric) = false)
    (hobj : (d.cols.getD i defMeta).dtype = Dtype.obj) :
    missAction d i = MissAction.fillWith
      (match modeScalar (nonMissing (columnValues d i)) with
       | some v => v
       | none => Scalar.str "Unknown") := by
  unfold missAction
  rw [if_neg (by omega), if_neg hpct, if_neg (by simp only [hnum]; simp),
    if_pos (by rw [hobj]; rfl)]

/-- C6: per column of a (unique-name) dataset with missing values, the
missing-value step drops the column when the missing share exceeds 90%;
otherwise fills a NUMERIC-classified column with `0` when its name
contains `cantidad` and with the column's median over non-missing
values otherwise; and fills a TEXTUAL (`object`) column with its mode,
or with `"Unknown"` when no non-missing value exists. -/
theorem claim_C6 (d : Dataset) (hnodup : (colNames d).Nodup) (i : Nat)
    (hi : i < d.cols.length)
    (hmc : 0 < missingCount (columnValues d i)) :
    (((missingCount (columnValues d i) : ℚ) / (d.rows.length : ℚ)) * 100 > 90 →
        (d.cols.getD i defMeta).name ∉ colNames (handle_missing_values d))
      ∧ (¬(((missingCount (columnValues d i) : ℚ) / (d.rows.length : ℚ)) * 100 > 90) →
          (nameMatchesAny (d.cols.getD i defMeta).name numericKeywords
              || (d.cols.getD i defMeta).dtype == Dtype.numeric) = true →
          (strContains (lowerStr (d.cols.getD i defMeta).name) "cantidad" = true →
            getColByName (handle_missing_values d) (d.cols.getD i defMeta).name
              = some ((columnValues d i).map
                  (applyFill (MissAction.fillWith (Scalar.num 0)))))
          ∧ (strContains (lowerStr (d.cols.getD i defMeta).name) "cantidad" = false →
              ∀ m, medianQ (colRats (columnValues d i)) = some m →
              getColByName (handle_missing_values d) (d.cols.getD i defMeta).name
                = some ((columnValues d i).map
                    (applyFill (MissAction.fillWith (Scalar.num m))))))
      ∧ (¬(((missingCount (columnValues d i) : ℚ) / (d.rows.length : ℚ)) * 100 > 90) →
          (nameMatchesAny (d.cols.getD i defMeta).name numericKeywords
              || (d.cols.getD i defMeta).dtype == Dtype.numeric) = false →
          (d.cols.getD i defMeta).dtype = Dtype.obj →
          getColByName (handle_missing_values d) (d.cols.getD i defMeta).name
            = some ((columnValues d i).map
                (applyFill (MissAction.fillWith
                  (match modeScalar (nonMissing (columnValues d i)) with
                   | some v => v
                   | none => Scalar.str "Unknown"))))) := by
  refine ⟨?_, ?_, ?_⟩
  · intro hpct
    exact handle_missing_dropped d hnodup hi (missAction_drop d i hmc hpct)
  · intro hpct hnum
    constructor
    · intro hcant
      have ha := missAction_cantidad d i hmc hpct hnum hcant
      have hcol := handle_missing_col d hnodup hi (by rw [ha]; simp)
      rw [ha] at hcol
      exact hcol
    · intro hcant m hm
      have ha := missAction_median d i m hmc hpct hnum hcant hm
      have hcol := handle_missing_col d hnodup hi (by rw [ha]; simp)
      rw [ha] at hcol
      exact hcol
  · intro hpct hnum hobj
    have ha := missAction_text d i hmc hpct hnum hobj
    have hcol := handle_missing_col d hnodup hi (by rw [ha]; simp)
    rw [ha] at hcol
    exact hcol

/-- C6 witness: the theorem applied to a two-row `cantidad` column with
one missing value, which is filled with `0`. -/
theorem claim_C6_witness :
    (colNames cantidadFrame).Nodup
      ∧ 0 < missingCount (columnValues cantidadFrame 0)
      ∧ getColByName (handle_missing_values cantidadFrame)
          (cantidadFrame.cols.getD 0 defMeta).name
        = some ((columnValues cantidadFrame 0).map
            (applyFill (MissAction.fillWith (Scalar.num 0)))) := by
  have hmc : missingCount (columnValues cantidadFrame 0) = 1 := by decide
  have hrl : cantidadFrame.rows.length = 2 := by decide
  refine ⟨by decide, by decide, ?_⟩
  exact ((claim_C6 cantidadFrame (by decide) 0 (by decide) (by decide)).2.1
    (by rw [hmc, hrl]; norm_num) (by decide)).1 (by decide)

/-! ### Claim C7 -/

/-- C7, counterexample: the column `cantidad_region` contains the
textual keyword `region`, and the text-column identification does list
it; yet the missing-value step treats it as NUMERIC — the missing cell
of `[5, missing]` is filled with `0`, not with the column's mode `5` as
textual treatment would require. -/
theorem claim_C7_counterexample :
    identify_text_columns mixedKeywordFrame = ["cantidad_region"]
      ∧ getColByName (handle_missing_values mixedKeywordFrame) "cantidad_region"
          = some [some (Scalar.num 5), some (Scalar.num 0)]
      ∧ modeScalar (nonMissing (columnValues mixedKeywordFrame 0)) = some (Scalar.num 5)
      ∧ getColByName (handle_missing_values mixedKeywordFrame) "cantidad_region"
          ≠ some [some (Scalar.num 5), some (Scalar.num 5)] := by
  have hmc : missingCount (columnValues mixedKeywordFrame 0) = 1 := by decide
  have hrl : mixedKeywordFrame.rows.length = 2 := by decide
  have ha : missAction mixedKeywordFrame 0 = MissAction.fillWith (Scalar.num 0) :=
    missAction_cantidad mixedKeywordFrame 0 (by decide)
      (by rw [hmc, hrl]; norm_num) (by decide) (by decide)
  have hcol := handle_missing_col mixedKeywordFrame (by decide)
    (show 0 < mixedKeywordFrame.cols.length by decide) (by rw [ha]; simp)
  rw [ha] at hcol
  have hmap : (columnValues mixedKeywordFrame 0).map
      (applyFill (MissAction.fillWith (Scalar.num 0)))
      = [some (Scalar.num 5), some (Scalar.num 0)] := by decide
  rw [hmap] at hcol
  have hcol' : getColByName (handle_missing_values mixedKeywordFrame) "cantidad_region"
      = some [some (Scalar.num 5), some (Scalar.num 0)] := hcol
  refine ⟨by decide, hcol', by decide, ?_⟩
  rw [hcol']
  intro hcontra
  rw [Option.some.injEq] at hcontra
  exact absurd hcontra (by decide)

/-- C7, amended: every column whose lowercased name contains one of the
textual keywords of `_text_columns_pattern` (`textKeywords`: nombre,
titulo, carrera, institucion, region, provincia, comuna, area,
modalidad, sede) is listed by `_identify_text_columns`, even when the
name also contains a numeric keyword of `_numeric_columns_pattern`
(`numericKeywords`: codigo, cantidad, ano, mes, edad) or the values are
numeric-typed; but classification is not first-match-wins across steps:
`_identify_numeric_columns` applies its own name-or-dtype test
independently, so a column whose name also contains a numeric keyword
is listed as numeric too, and `_handle_missing_values` consults the
numeric classification first — such a doubly-matching column (not
dropped for >90% missing) has its missing values filled with `0` when
the name contains `cantidad` and with the column median otherwise, not
with the textual mode/`"Unknown"` fill. -/
theorem claim_C7_amended (d : Dataset) (i : Nat) (hi : i < d.cols.length)
    (htext : nameMatchesAny (d.cols.getD i defMeta).name textKeywords = true) :
    (d.cols.getD i defMeta).name ∈ identify_text_columns d
      ∧ (nameMatchesAny (d.cols.getD i defMeta).name numericKeywords = true →
          (d.cols.getD i defMeta).name ∈ identify_numeric_columns d
            ∧ ((colNames d).Nodup →
                0 < missingCount (columnValues d i) →
                ¬(((missingCount (columnValues d i) : ℚ) / (d.rows.length : ℚ)) * 100 > 90) →
                (strContains (lowerStr (d.cols.getD i defMeta).name) "cantidad" = true →
                  getColByName (handle_missing_values d) (d.cols.getD i defMeta).name
                    = some ((columnValues d i).map
                        (applyFill (MissAction.fillWith (Scalar.num 0)))))
                ∧ (strContains (lowerStr (d.cols.getD i defMeta).name) "cantidad" = false →
                    ∀ m, medianQ (colRats (columnValues d i)) = some m →
                    getColByName (handle_missing_values d) (d.cols.getD i defMeta).name
                      = some ((columnValues d i).map
                          (applyFill (MissAction.fillWith (Scalar.num m))))))) := by
  have hmem : d.cols.getD i defMeta ∈ d.cols := by
    rw [List.getD_eq_getElem _ _ hi]
    exact List.getElem_mem _
  refine ⟨?_, ?_⟩
  · unfold identify_text_columns
    refine List.mem_map_of_mem _ (List.mem_filter.mpr ⟨hmem, ?_⟩)
    rw [htext]
    rfl
  · intro hnumkw
    have hnum : (nameMatchesAny (d.cols.getD i defMeta).name numericKeywords
        || (d.cols.getD i defMeta).dtype == Dtype.numeric) = true := by
      rw [hnumkw]
      rfl
    refine ⟨?_, ?_⟩
    · unfold identify_numeric_columns
      refine List.mem_map_of_mem _ (List.mem_filter.mpr ⟨hmem, ?_⟩)
      rw [hnumkw]
      rfl
    · intro hnodup hmc hpct
      refine ⟨?_, ?_⟩
      · intro hcant
        have ha := missAction_cantidad d i hmc hpct hnum hcant
        have hcol := handle_missing_col d hnodup hi (by rw [ha]; simp)
        rw [ha] at hcol
        exact hcol
      · intro hcant m hm
        have ha := missAction_median d i m hmc hpct hnum hcant hm
        have hcol := handle_missing_col d hnodup hi (by rw [ha]; simp)
        rw [ha] at hcol
        exact hcol

/-- C7 witness: the amended theorem applied to the concrete
`cantidad_region` column. -/
theorem claim_C7_witness :
    (mixedKeywordFrame.cols.getD 0 defMeta).name ∈ identify_text_columns mixedKeywordFrame
      ∧ (mixedKeywordFrame.cols.getD 0 defMeta).name
          ∈ identify_numeric_columns mixedKeywordFrame
      ∧ getColByName (handle_missing_values mixedKeywordFrame)
            (mixedKeywordFrame.cols.getD 0 defMeta).name
          = some ((columnValues mixedKeywordFrame 0).map
              (applyFill (MissAction.fillWith (Scalar.num 0)))) := by
  have hmc : missingCount (columnValues mixedKeywordFrame 0) = 1 := by decide
  have hrl : mixedKeywordFrame.rows.length = 2 := by decide
  have h := claim_C7_amended mixedKeywordFrame 0 (by decide) (by decide)
  have h2 := h.2 (by decide)
  exact ⟨h.1, h2.1,
    (h2.2 (by decide) (by decide) (by rw [hmc, hrl]; norm_num)).1 (by decide)⟩

end Titulacion
